import Mathlib

/-!
# Verification of the UnifiedBattleLogSystem event-log store

Shallow embedding of the battle-log persistence subsystem
(`UnifiedBattleLogSystem`, its `LRUCache`, `Mutex` and `CompressionUtils`
helpers) and of the `SkillWebSocketManager` acknowledgment/retry logic.

Modelling conventions:
* The runtime is single-threaded and cooperative (all operations are
  `async` but multiplexed on one logical thread); every public operation
  of the store is additionally serialized per log id by a `Mutex`.  The
  sequential model below therefore executes each operation atomically as
  a pure state transformer.  The one claim that is genuinely about
  interleavings (concurrent flushes) is settled on a dedicated
  small-step model in namespace `Conc`.
* `AsyncStorage` is a string-keyed store with the deterministic key
  scheme `battle_log_meta_<id>`, `battle_log_chunk_<id>_<i>`,
  `battle_logs_index`.  Keys of the three kinds can never collide
  (chunk indices are digit strings), so the store is modelled by three
  structurally-keyed association lists.
* JavaScript `Map`s preserve insertion order; `Map.get`/`Map.set` of an
  existing key keep its position, `Map.delete` removes it.  Association
  lists with `lookupA`/`mapSetA`/`eraseKeyA` model this exactly.
* JSON serialization is not modelled byte-for-byte: a persisted chunk
  record is modelled by `StoredChunk`, which records exactly the
  information the reading code can observe (whether the payload
  lz-decompresses, and what `JSON.parse` yields after the
  decompress-or-raw fallback).  The two string lengths the flush path
  measures (`JSON.stringify(chunk).length` and the compressed length)
  are abstracted by a `SerializeModel` parameter.
-/

namespace BattleLog

/-- Association-list lookup; models JS `Map.get` (first, and in our use
only, binding for the key). -/
def lookupA {κ α : Type} [DecidableEq κ] : List (κ × α) → κ → Option α
  | [], _ => none
  | (k, v) :: t, key => if key = k then some v else lookupA t key

/-- Association-list update; models JS `Map.set`: an existing key keeps
its position in insertion order, a new key is appended at the end. -/
def mapSetA {κ α : Type} [DecidableEq κ] : List (κ × α) → κ → α → List (κ × α)
  | [], key, v => [(key, v)]
  | (k, w) :: t, key, v => if key = k then (k, v) :: t else (k, w) :: mapSetA t key v

/-- Association-list removal; models JS `Map.delete` (keys are unique in
all states the system builds, so removing the first binding is exact). -/
def eraseKeyA {κ α : Type} [DecidableEq κ] : List (κ × α) → κ → List (κ × α)
  | [], _ => []
  | (k, w) :: t, key => if key = k then t else (k, w) :: eraseKeyA t key

@[simp] theorem lookupA_nil {κ α : Type} [DecidableEq κ] (key : κ) :
    lookupA ([] : List (κ × α)) key = none := rfl

@[simp] theorem lookupA_cons {κ α : Type} [DecidableEq κ] (k : κ) (v : α)
    (t : List (κ × α)) (key : κ) :
    lookupA ((k, v) :: t) key = if key = k then some v else lookupA t key := rfl

@[simp] theorem mapSetA_nil {κ α : Type} [DecidableEq κ] (key : κ) (v : α) :
    mapSetA ([] : List (κ × α)) key v = [(key, v)] := rfl

@[simp] theorem mapSetA_cons {κ α : Type} [DecidableEq κ] (k : κ) (w : α)
    (t : List (κ × α)) (key : κ) (v : α) :
    mapSetA ((k, w) :: t) key v =
      if key = k then (k, v) :: t else (k, w) :: mapSetA t key v := rfl

@[simp] theorem eraseKeyA_nil {κ α : Type} [DecidableEq κ] (key : κ) :
    eraseKeyA ([] : List (κ × α)) key = [] := rfl

@[simp] theorem eraseKeyA_cons {κ α : Type} [DecidableEq κ] (k : κ) (w : α)
    (t : List (κ × α)) (key : κ) :
    eraseKeyA ((k, w) :: t) key =
      if key = k then t else (k, w) :: eraseKeyA t key := rfl

theorem lookupA_mapSetA_self {κ α : Type} [DecidableEq κ]
    (l : List (κ × α)) (key : κ) (v : α) :
    lookupA (mapSetA l key v) key = some v := by
  induction l with
  | nil => simp
  | cons h t ih =>
    obtain ⟨k, w⟩ := h
    by_cases hk : key = k <;> simp [hk, ih]

theorem lookupA_mapSetA_ne {κ α : Type} [DecidableEq κ]
    (l : List (κ × α)) (key key' : κ) (v : α) (hne : key' ≠ key) :
    lookupA (mapSetA l key v) key' = lookupA l key' := by
  induction l with
  | nil => simp [hne]
  | cons h t ih =>
    obtain ⟨k, w⟩ := h
    by_cases hk : key = k
    · subst hk; simp [hne]
    · by_cases hk' : key' = k <;> simp [hk, hk', ih]

theorem lookupA_isSome_mapSetA {κ α : Type} [DecidableEq κ]
    (l : List (κ × α)) (key key' : κ) (v : α)
    (h : (lookupA l key').isSome) :
    (lookupA (mapSetA l key v) key').isSome := by
  by_cases hk : key' = key
  · subst hk; simp [lookupA_mapSetA_self]
  · rw [lookupA_mapSetA_ne l key key' v hk]; exact h

theorem lookupA_append {κ α : Type} [DecidableEq κ] (l₁ l₂ : List (κ × α)) (key : κ) :
    lookupA (l₁ ++ l₂) key =
      match lookupA l₁ key with
      | some v => some v
      | none => lookupA l₂ key := by
  induction l₁ with
  | nil => simp
  | cons h t ih =>
    obtain ⟨k, w⟩ := h
    by_cases hk : key = k <;> simp [hk, ih]

theorem lookupA_map_range_eq_none {α : Type} (f : ℕ → α) (c : ℕ) (key : ℤ)
    (h : ∀ j, j < c → Int.ofNat j ≠ key) :
    lookupA ((List.range c).map (fun j => (Int.ofNat j, f j))) key = none := by
  induction c with
  | zero => simp
  | succ n ih =>
    rw [List.range_succ, List.map_append, lookupA_append]
    rw [ih (fun j hj => h j (Nat.lt_succ_of_lt hj))]
    have h2 : key ≠ Int.ofNat n := fun he => h n (Nat.lt_succ_self n) he.symm
    simp only [List.map_cons, List.map_nil, lookupA_cons, lookupA_nil, if_neg h2]

theorem lookupA_map_range_lt {α : Type} (f : ℕ → α) (c : ℕ) (k : ℕ) (hk : k < c) :
    lookupA ((List.range c).map (fun j => (Int.ofNat j, f j))) (Int.ofNat k) = some (f k) := by
  induction c with
  | zero => omega
  | succ n ih =>
    rw [List.range_succ, List.map_append, lookupA_append]
    by_cases hkn : k = n
    · subst hkn
      rw [lookupA_map_range_eq_none f k (Int.ofNat k) (fun j hj he => by
        have hjk : j = k := Int.ofNat.inj he
        omega)]
      simp
    · have h1 := ih (by omega)
      rw [h1]

/-! ## Configuration (`BattleLogConfig`, `DEFAULT_CONFIG`) -/

/-- `BattleLogConfig` from the source (all numeric fields are JS numbers
used as non-negative integers). -/
structure BattleLogConfig where
  chunkSize : ℕ
  maxChunksPerBattle : ℕ
  maxBattlesStored : ℕ
  flushThreshold : ℕ
  flushInterval : ℕ
  cacheSize : ℕ
  compressThreshold : ℕ
  enableCompression : Bool
  maxIndexTokens : ℕ
  maxIndexPositions : ℕ
  debug : Bool
  enableTelemetry : Bool
deriving DecidableEq, Repr

/-- `DEFAULT_CONFIG` from the source. -/
def DEFAULT_CONFIG : BattleLogConfig :=
  { chunkSize := 50
    maxChunksPerBattle := 10
    maxBattlesStored := 20
    flushThreshold := 10
    flushInterval := 2000
    cacheSize := 5
    compressThreshold := 8192
    enableCompression := true
    maxIndexTokens := 20
    maxIndexPositions := 200
    debug := false
    enableTelemetry := false }

/-! ## Data model -/

/-- The `type` field of a `BattleMessage`. -/
inductive MsgType where
  | system | player | action | damage | heal | status
deriving DecidableEq, Repr

/-- `BattleMessage` from the source.  The optional opaque `metadata`
record is not modelled (never read by the subsystem). -/
structure BattleMessage where
  id : String
  battleId : String
  senderId : String
  senderName : String
  content : String
  type : MsgType
  timestamp : ℕ
  clientTimestamp : ℕ
  serverSeq : Option ℕ
  serverTimestamp : Option ℕ
  editVersion : Option ℕ
  isRead : Bool
deriving DecidableEq, Repr

/-- `BattleMeta` from the source.  `lastChunkIndex` is initialized to
`-1`, hence `ℤ`; `unreadCount` is updated through
`Math.max(0, unreadCount + delta)`, hence `ℤ` with an explicit clamp. -/
structure BattleMeta where
  battleId : String
  startTime : ℕ
  lastChunkIndex : ℤ
  lastUpdated : ℕ
  participants : List String
  totalMessages : ℕ
  unreadCount : ℤ
  isArchived : Bool
  compressionUsed : Bool
deriving DecidableEq, Repr

/-- `MessageChunk` from the source. -/
structure MessageChunk where
  battleId : String
  chunkIndex : ℤ
  messages : List BattleMessage
  compressed : Bool
  size : ℕ
  createdAt : ℕ
deriving DecidableEq, Repr

/-- `QueuedMessage` from the source (the battle-log sync queue). -/
inductive QStatus where
  | pending | sent | ack | failed
deriving DecidableEq, Repr

structure QueuedMessage where
  id : String
  battleId : String
  payload : BattleMessage
  clientTimestamp : ℕ
  status : QStatus
  retryCount : ℕ
deriving DecidableEq, Repr

/-- `SearchResult` from the source.  `relevanceScore` is
`score / queryTokens.length`, an exact rational in this model (the JS
double agrees on equality comparisons for the small integers involved). -/
structure SearchResult where
  battleId : String
  chunkIndex : ℤ
  messageIndex : ℕ
  message : BattleMessage
  relevanceScore : ℚ
deriving DecidableEq, Repr

/-! ## Persistent storage model

`AsyncStorage` holds, per battle log, one meta record under
`battle_log_meta_<id>`, chunk records under
`battle_log_chunk_<id>_<i>`, and the global index under
`battle_logs_index`.  The key scheme is injective (chunk indices are
digit strings), so the store is modelled by three structurally-keyed
association lists. -/

/-- A persisted chunk record, abstracting the stored string at the level
of what `loadBattleFromStorage` can observe.  `CompressionUtils.decompress`
catches its own errors and falls back to returning the raw payload, and
`CompressionUtils.isCompressed` probes by attempting decompression, so
the read pipeline `isCompressed? → decompress → JSON.parse` has exactly
three outcomes per record:
* `compressedOk c` — the payload decompresses, and the result parses as
  the chunk `c`;
* `rawOk c` — the payload is not lz-compressed (decompression falls
  back to the raw string), and the raw string parses as the chunk `c`;
* `unreadable` — after the decompress-or-raw fallback the string does
  not parse: `JSON.parse` throws. -/
inductive StoredChunk where
  | compressedOk (c : MessageChunk)
  | rawOk (c : MessageChunk)
  | unreadable
deriving DecidableEq, Repr

/-- The chunk a stored record yields on read, `none` when `JSON.parse`
throws (`isCompressed`/`decompress` fallback included, see `StoredChunk`). -/
def decodeStoredChunk : StoredChunk → Option MessageChunk
  | .compressedOk c => some c
  | .rawOk c => some c
  | .unreadable => none

/-- The `AsyncStorage` contents relevant to the battle-log subsystem. -/
structure Storage where
  /-- records under keys `battle_log_meta_<battleId>` -/
  metas : List (String × BattleMeta)
  /-- records under keys `battle_log_chunk_<battleId>_<chunkIndex>` -/
  chunks : List ((String × ℤ) × StoredChunk)
  /-- the record under key `battle_logs_index` -/
  index : Option (List String)
deriving DecidableEq, Repr

/-! ## In-memory state -/

/-- The value type of the LRU cache: `{ meta, chunks }`, with the chunk
map as an insertion-ordered association list. -/
structure BattleData where
  meta : BattleMeta
  chunks : List (ℤ × MessageChunk)
deriving DecidableEq, Repr

/-- `LRUCache.get`: a hit refreshes recency by deleting and re-inserting
the key at the end of the insertion-ordered map.  (The stored
`timestamp`/`accessCount` bookkeeping never influences behaviour —
eviction uses map order — and is not modelled.) -/
def lruGet {α : Type} (c : List (String × α)) (k : String) : Option α × List (String × α) :=
  match lookupA c k with
  | none => (none, c)
  | some v => (some v, eraseKeyA c k ++ [(k, v)])

/-- `LRUCache.set`: when `size ≥ maxSize` the first (oldest) key is
evicted — guarded by JS truthiness of the key, so an empty-string key is
not evicted — then `Map.set` stores the value (in place for an existing
key, appended otherwise). -/
def lruSet {α : Type} (maxSize : ℕ) (c : List (String × α)) (k : String) (v : α) :
    List (String × α) :=
  let c1 := if maxSize ≤ c.length then
      match c with
      | [] => []
      | (k0, v0) :: t => if k0 = "" then (k0, v0) :: t else t
    else c
  mapSetA c1 k v

/-- Telemetry counters (`this.stats`). -/
structure Stats where
  cacheHits : ℕ
  cacheMisses : ℕ
  writes : ℕ
  flushes : ℕ
  compressions : ℕ
  errors : ℕ
deriving DecidableEq, Repr

/-- Events emitted through the `EventEmitter` base class, recorded as an
append-only trace. -/
inductive BattleLogEvent where
  | messageEnqueued (m : BattleMessage)
  | battleMessage (battleId : String) (m : BattleMessage)
  | messagesPersisted (battleId : String) (chunkIndex : ℤ) (messageCount : ℕ)
  | battlePersisted (battleId : String) (chunkIndex : ℤ) (messageCount : ℕ)
  | flushError (battleId : String)
  | battleCleared (battleId : String)
  | allLogsCleared
deriving DecidableEq, Repr

/-- Per-battle inverted index: token → position list. -/
abbrev BattleIndex := List (String × List (ℤ × ℕ))

/-- The `UnifiedBattleLogSystem` instance state together with the
`AsyncStorage` contents it operates on.  The per-battle `mutexes` map is
not part of the sequential model: every operation below runs atomically,
which is exactly what the per-log mutex guarantees for same-log
operations on the single-threaded runtime (the interleaving-sensitive
claim is handled by the `Conc` model). -/
structure UnifiedBattleLogSystem where
  config : BattleLogConfig
  storage : Storage
  cache : List (String × BattleData)
  writeQueues : List (String × List BattleMessage)
  /-- battle ids with an armed flush timer (`flushTimers` keys). -/
  flushTimers : List String
  messageQueue : List QueuedMessage
  searchIndex : List (String × BattleIndex)
  globalMetaIndex : List String
  stats : Stats
  events : List BattleLogEvent
deriving DecidableEq, Repr

/-- A fresh system over an `AsyncStorage` with no battle-log records,
as produced by the constructor (`initializeGlobalMetaIndex` finds no
stored index and leaves `globalMetaIndex` empty). -/
def initSystem (config : BattleLogConfig) : UnifiedBattleLogSystem :=
  { config := config
    storage := { metas := [], chunks := [], index := none }
    cache := []
    writeQueues := []
    flushTimers := []
    messageQueue := []
    searchIndex := []
    globalMetaIndex := []
    stats := { cacheHits := 0, cacheMisses := 0, writes := 0, flushes := 0,
               compressions := 0, errors := 0 }
    events := [] }

/-- Abstraction of the two string lengths the flush path measures:
`JSON.stringify(chunk).length` and the length of its
`compressToUTF16` image. -/
structure SerializeModel where
  stringifyLen : MessageChunk → ℕ
  compressLen : MessageChunk → ℕ

/-- A serialize model under which no chunk ever reaches the compression
threshold (used by the concrete scenarios). -/
def szZero : SerializeModel := ⟨fun _ => 0, fun _ => 0⟩

/-! ## Operations -/

/-- The caller-supplied part of a message,
`Omit<BattleMessage, 'id' | 'timestamp' | 'clientTimestamp' | 'isRead'>`. -/
structure MessagePayload where
  battleId : String
  senderId : String
  senderName : String
  content : String
  type : MsgType
  serverSeq : Option ℕ
  serverTimestamp : Option ℕ
  editVersion : Option ℕ
deriving DecidableEq, Repr

/-- The `fullMessage` built by `enqueueMessage`: spread of the payload
plus generated id, `timestamp = clientTimestamp = Date.now()`,
`isRead = false`. -/
def mkFullMessage (msgId : String) (now : ℕ) (p : MessagePayload) : BattleMessage :=
  { id := msgId, battleId := p.battleId, senderId := p.senderId,
    senderName := p.senderName, content := p.content, type := p.type,
    timestamp := now, clientTimestamp := now, serverSeq := p.serverSeq,
    serverTimestamp := p.serverTimestamp, editVersion := p.editVersion,
    isRead := false }

/-- `updateGlobalMetaIndex`: persist `this.globalMetaIndex` under
`battle_logs_index`. -/
def updateGlobalMetaIndex (s : UnifiedBattleLogSystem) : UnifiedBattleLogSystem :=
  { s with storage := { s.storage with index := some s.globalMetaIndex } }

/-- `ensureBattleMetaExists`. -/
def ensureBattleMetaExists (now : ℕ) (s : UnifiedBattleLogSystem) (battleId : String) :
    UnifiedBattleLogSystem :=
  match lookupA s.storage.metas battleId with
  | some _ => s
  | none =>
    let newMeta : BattleMeta :=
      { battleId := battleId, startTime := now, lastChunkIndex := -1,
        lastUpdated := now, participants := [], totalMessages := 0,
        unreadCount := 0, isArchived := false, compressionUsed := false }
    let s1 := { s with storage :=
      { s.storage with metas := mapSetA s.storage.metas battleId newMeta } }
    if battleId ∈ s1.globalMetaIndex then s1
    else updateGlobalMetaIndex { s1 with globalMetaIndex := s1.globalMetaIndex ++ [battleId] }

/-- `updateUnreadCountInMemory` (reads and rewrites the persisted meta;
the name notwithstanding, the source updates the stored record). -/
def updateUnreadCountInMemory (now : ℕ) (s : UnifiedBattleLogSystem)
    (battleId : String) (delta : ℤ) : UnifiedBattleLogSystem :=
  match lookupA s.storage.metas battleId with
  | none => s
  | some meta =>
    let meta' := { meta with unreadCount := max 0 (meta.unreadCount + delta),
                             lastUpdated := now }
    { s with storage :=
      { s.storage with metas := mapSetA s.storage.metas battleId meta' } }

/-- `scheduleFlush`: (re)arms the flush timer for the battle; re-arming
replaces the prior timer, so the timer set is keyed by battle id. -/
def scheduleFlush (s : UnifiedBattleLogSystem) (battleId : String) : UnifiedBattleLogSystem :=
  { s with flushTimers :=
      if battleId ∈ s.flushTimers then s.flushTimers else s.flushTimers ++ [battleId] }

/-- `extractTokens`: lower-case `senderName ⧺ " " ⧺ content`, split on
whitespace runs, keep words longer than 2 characters, cap at
`maxIndexTokens`. -/
def extractTokens (cfg : BattleLogConfig) (message : BattleMessage) : List String :=
  let text := (message.senderName ++ " " ++ message.content).toLower
  ((text.split (fun c => c.isWhitespace)).filter (fun word => word.length > 2)).take
    cfg.maxIndexTokens

/-- Append a position to a token's list, then cap the list at
`maxIndexPositions` by `splice`-ing off the oldest entries. -/
def pushPos (cfg : BattleLogConfig) (positions : List (ℤ × ℕ)) (p : ℤ × ℕ) :
    List (ℤ × ℕ) :=
  let positions := positions ++ [p]
  if positions.length > cfg.maxIndexPositions then
    positions.drop (positions.length - cfg.maxIndexPositions)
  else positions

/-- `indexMessage`. -/
def indexMessage (cfg : BattleLogConfig) (battleIndex : BattleIndex)
    (message : BattleMessage) (chunkIndex : ℤ) (messageIndex : ℕ) : BattleIndex :=
  (extractTokens cfg message).foldl
    (fun bi token =>
      mapSetA bi token (pushPos cfg ((lookupA bi token).getD []) (chunkIndex, messageIndex)))
    battleIndex

/-- `updateSearchIndex`: index every message of the new chunk. -/
def updateSearchIndex (cfg : BattleLogConfig) (si : List (String × BattleIndex))
    (chunk : MessageChunk) : List (String × BattleIndex) :=
  let bi := (lookupA si chunk.battleId).getD []
  let bi := chunk.messages.enum.foldl
    (fun bi p => indexMessage cfg bi p.2 chunk.chunkIndex p.1) bi
  mapSetA si chunk.battleId bi

/-- `rebuildSearchIndexFromChunks` (note: merges into any existing
per-battle index, it does not clear it first). -/
def rebuildSearchIndexFromChunks (cfg : BattleLogConfig)
    (si : List (String × BattleIndex)) (battleId : String)
    (chunks : List (ℤ × MessageChunk)) : List (String × BattleIndex) :=
  let bi := (lookupA si battleId).getD []
  let bi := chunks.foldl
    (fun bi pc => pc.2.messages.enum.foldl
      (fun bi p => indexMessage cfg bi p.2 pc.1 p.1) bi) bi
  mapSetA si battleId bi

/-- The chunk-reading loop of `loadBattleFromStorage` over the
deterministic keys `battle_log_chunk_<id>_<i>`, `i = 0 … lastChunkIndex`:
an absent record is skipped (`if (value)`), a record whose payload fails
to parse makes `JSON.parse` throw, which aborts the whole load (the
exception is only caught by the function's outer try/catch). -/
def readChunksLoop (st : Storage) (battleId : String) (idxs : List ℤ) :
    Option (List (ℤ × MessageChunk)) :=
  idxs.foldlM
    (fun acc i =>
      match lookupA st.chunks (battleId, i) with
      | none => some acc
      | some payload =>
        match decodeStoredChunk payload with
        | some c => some (mapSetA acc i c)
        | none => none)
    []

/-- `loadBattleFromStorage`.  Returns `none` when the meta record is
absent, and also when any present chunk record fails to parse (outer
catch: `stats.errors++; return null`).  On success it rebuilds the
search index for the battle as a side effect. -/
def loadBattleFromStorage (s : UnifiedBattleLogSystem) (battleId : String) :
    Option BattleData × UnifiedBattleLogSystem :=
  match lookupA s.storage.metas battleId with
  | none => (none, s)
  | some meta =>
    match readChunksLoop s.storage battleId
        ((List.range (meta.lastChunkIndex + 1).toNat).map Int.ofNat) with
    | none =>
      (none, { s with stats := { s.stats with errors := s.stats.errors + 1 } })
    | some chunks =>
      (some { meta := meta, chunks := chunks },
       { s with searchIndex :=
          rebuildSearchIndexFromChunks s.config s.searchIndex battleId chunks })

/-- A chunk as persisted by `saveBattleChunks`: the record is
re-compressed when its `compressed` flag is set (the model assumes the
compression backend is available and round-trips; its absence or failure
would merely turn `compressedOk` into `rawOk`, which decodes the same). -/
def encodeChunk (c : MessageChunk) : StoredChunk :=
  if c.compressed then .compressedOk c else .rawOk c

/-- `saveBattleChunks` (`AsyncStorage.multiSet` over the chunk keys). -/
def saveBattleChunks (st : Storage) (battleId : String) (chunks : List MessageChunk) :
    Storage :=
  { st with chunks :=
      (chunks.foldl (fun m c => mapSetA m (battleId, c.chunkIndex) (encodeChunk c))
        st.chunks) }

/-- `saveBattleMeta`. -/
def saveBattleMeta (st : Storage) (meta : BattleMeta) : Storage :=
  { st with metas := mapSetA st.metas meta.battleId meta }

/-- `Math.max(...xs)`; the `-Infinity` it returns on an empty array is
modelled by a sentinel below any chunk index the system can produce. -/
def negInfinity : ℤ := -(2 ^ 1024)

def listMaxInt : List ℤ → ℤ
  | [] => negInfinity
  | x :: xs => xs.foldl max x

/-- `pruneBattleIfNeeded`: when the *cached* chunk map holds more than
`maxChunksPerBattle` chunks, the lowest-indexed surplus chunks are
deleted from the cached map, `lastChunkIndex` is reset to the highest
remaining key, and the remaining chunks plus the meta are re-saved.
(The pruned chunks' storage records are not removed.) -/
def pruneBattleIfNeeded (s : UnifiedBattleLogSystem) (battleId : String) :
    UnifiedBattleLogSystem :=
  let g := lruGet s.cache battleId
  let s := { s with cache := g.2 }
  match g.1 with
  | none => s
  | some battleData =>
    if battleData.chunks.length > s.config.maxChunksPerBattle then
      let sortedChunkIndices :=
        (battleData.chunks.map Prod.fst).insertionSort (fun a b => a ≤ b)
      let chunksToRemove :=
        sortedChunkIndices.take (battleData.chunks.length - s.config.maxChunksPerBattle)
      let chunks := chunksToRemove.foldl (fun cs i => eraseKeyA cs i) battleData.chunks
      let meta := { battleData.meta with lastChunkIndex := listMaxInt (chunks.map Prod.fst) }
      let battleData' : BattleData := { meta := meta, chunks := chunks }
      let s := { s with cache := mapSetA s.cache battleId battleData' }
      let s := { s with storage := saveBattleChunks s.storage battleId (chunks.map Prod.snd) }
      { s with storage := saveBattleMeta s.storage meta }
    else s

/-- The default `battleData` constructed by `flushBattle` when neither
the cache nor storage has the battle. -/
def defaultBattleData (battleId : String) (now : ℕ) : BattleData :=
  { meta := { battleId := battleId, startTime := now, lastChunkIndex := -1,
              lastUpdated := now, participants := [], totalMessages := 0,
              unreadCount := 0, isArchived := false, compressionUsed := false }
    chunks := [] }

/-- The catch-branch of `flushBattle`'s try/catch: count the error and
emit `flushError`.  When the battle data came from the cache, the
in-place mutations made before the failing save (meta bump and
chunk-map insertion) are visible through the cached reference. -/
def flushFailureState (s : UnifiedBattleLogSystem) (battleId : String)
    (fromCache : Bool) (battleData' : BattleData) : UnifiedBattleLogSystem :=
  let sF :=
    if fromCache then { s with cache := mapSetA s.cache battleId battleData' } else s
  { sF with stats := { sF.stats with errors := sF.stats.errors + 1 },
            events := sF.events ++ [BattleLogEvent.flushError battleId] }

/-- The success tail of `flushBattle` after both saves went through. -/
def flushSuccessState (s : UnifiedBattleLogSystem) (battleId : String)
    (meta : BattleMeta) (newChunk : MessageChunk) (battleData' : BattleData)
    (queueLen : ℕ) : UnifiedBattleLogSystem :=
  let s4 := { s with storage := saveBattleMeta s.storage meta }
  let s5 := { s4 with searchIndex := updateSearchIndex s4.config s4.searchIndex newChunk }
  let s6 := { s5 with writeQueues := mapSetA s5.writeQueues battleId [] }
  let s7 := { s6 with cache := lruSet s6.config.cacheSize s6.cache battleId battleData' }
  let s8 := { s7 with
    events := s7.events ++
      [BattleLogEvent.messagesPersisted battleId newChunk.chunkIndex queueLen,
       BattleLogEvent.battlePersisted battleId newChunk.chunkIndex queueLen],
    stats := { s7.stats with flushes := s7.stats.flushes + 1 } }
  pruneBattleIfNeeded s8 battleId

/-- The new chunk built by `flushBattle`: the buffered messages at the
next index, compressed (flag and size) when compression is enabled and
the serialized form exceeds the threshold. -/
def buildChunk (sm : SerializeModel) (cfg : BattleLogConfig) (battleId : String)
    (newChunkIndex : ℤ) (queue : List BattleMessage) (now : ℕ) : MessageChunk :=
  let chunk0 : MessageChunk :=
    { battleId := battleId, chunkIndex := newChunkIndex, messages := queue,
      compressed := false, size := 0, createdAt := now }
  if cfg.enableCompression && decide (sm.stringifyLen chunk0 > cfg.compressThreshold)
  then { chunk0 with compressed := true, size := sm.compressLen chunk0 }
  else { chunk0 with size := sm.stringifyLen chunk0 }

/-- The body of `flushBattle` once the non-empty queue has been read. -/
def flushBattleCore (sm : SerializeModel) (failChunk failMeta : Bool) (now : ℕ)
    (s : UnifiedBattleLogSystem) (battleId : String) (queue : List BattleMessage) :
    UnifiedBattleLogSystem :=
  let sA : UnifiedBattleLogSystem := { s with flushTimers := s.flushTimers.erase battleId }
  let g := lruGet sA.cache battleId
  let s0 : UnifiedBattleLogSystem := { sA with cache := g.2 }
  let fromCache : Bool := g.1.isSome
  let r : Option BattleData × UnifiedBattleLogSystem :=
    match g.1 with
    | some d => (some d, s0)
    | none => loadBattleFromStorage s0 battleId
  let s1 : UnifiedBattleLogSystem := r.2
  let battleData : BattleData := r.1.getD (defaultBattleData battleId now)
  let newChunkIndex : ℤ := battleData.meta.lastChunkIndex + 1
  let newChunk : MessageChunk := buildChunk sm s1.config battleId newChunkIndex queue now
  -- `stats.compressions++` ran exactly when the compression branch set the flag
  let s2 : UnifiedBattleLogSystem :=
    if newChunk.compressed then
      { s1 with stats := { s1.stats with compressions := s1.stats.compressions + 1 } }
    else s1
  let meta : BattleMeta :=
    { battleData.meta with
        lastChunkIndex := newChunkIndex
        totalMessages := battleData.meta.totalMessages + queue.length
        lastUpdated := now
        compressionUsed := newChunk.compressed }
  let battleData' : BattleData :=
    { meta := meta, chunks := mapSetA battleData.chunks newChunkIndex newChunk }
  if failChunk then flushFailureState s2 battleId fromCache battleData'
  else
    let s3 : UnifiedBattleLogSystem :=
      { s2 with storage := saveBattleChunks s2.storage battleId [newChunk] }
    if failMeta then flushFailureState s3 battleId fromCache battleData'
    else flushSuccessState s3 battleId meta newChunk battleData' queue.length

/-- `flushBattle`.  `failChunk` / `failMeta` inject an `AsyncStorage`
write failure into `saveBattleChunks` / `saveBattleMeta` (the thrown
error is re-thrown by those helpers and caught by `flushBattle`'s own
try/catch, so this function is total: nothing propagates to the
caller).  The per-log mutex admits the whole body as one atomic step of
the sequential model; the `Conc` model treats its interleavings. -/
def flushBattle (sm : SerializeModel) (failChunk failMeta : Bool) (now : ℕ)
    (s : UnifiedBattleLogSystem) (battleId : String) : UnifiedBattleLogSystem :=
  match lookupA s.writeQueues battleId with
  | none => s
  | some queue =>
    if queue.isEmpty then s
    else flushBattleCore sm failChunk failMeta now s battleId queue

/-- `enqueueMessage`.  The generated message id and `Date.now()` are
supplied by the caller of the model.  Threshold flushes run with
successful persistence (failure injection is exercised through direct
`flushBattle` calls). -/
def enqueueMessage (sm : SerializeModel) (msgId : String) (now : ℕ)
    (s : UnifiedBattleLogSystem) (battleId : String) (message : MessagePayload) :
    String × UnifiedBattleLogSystem :=
  let fullMessage := mkFullMessage msgId now message
  let s := ensureBattleMetaExists now s battleId
  let s := { s with writeQueues :=
    (mapSetA s.writeQueues battleId
      ((lookupA s.writeQueues battleId).getD [] ++ [fullMessage])) }
  let s := updateUnreadCountInMemory now s battleId 1
  let queue := (lookupA s.writeQueues battleId).getD []
  let s :=
    if queue.length ≥ s.config.flushThreshold then flushBattle sm false false now s battleId
    else scheduleFlush s battleId
  let s := { s with messageQueue :=
    (s.messageQueue ++
      [({ id := msgId, battleId := battleId, payload := fullMessage,
          clientTimestamp := now, status := QStatus.pending,
          retryCount := 0 } : QueuedMessage)]) }
  let s := { s with events :=
    (s.events ++
      [BattleLogEvent.messageEnqueued fullMessage,
       BattleLogEvent.battleMessage battleId fullMessage]) }
  (msgId, { s with stats := { s.stats with writes := s.stats.writes + 1 } })

/-- The inner loop of `getMessagesFromBattleData`: push a chunk's
messages newest-first while under the limit. -/
def pushNewestFirst (limit : ℕ) (acc : List BattleMessage) (ms : List BattleMessage) :
    List BattleMessage :=
  ms.reverse.foldl (fun a m => if a.length < limit then a ++ [m] else a) acc

/-- The outer loop of `getMessagesFromBattleData`: fuel `k+1` stands for
the current chunk index `k`, walking from `lastChunkIndex` down to 0. -/
def chunkWalk (chunks : List (ℤ × MessageChunk)) (limit : ℕ) :
    ℕ → List BattleMessage → List BattleMessage
  | 0, acc => acc
  | k + 1, acc =>
    if acc.length < limit then
      let acc' :=
        match lookupA chunks (Int.ofNat k) with
        | some c => pushNewestFirst limit acc c.messages
        | none => acc
      chunkWalk chunks limit k acc'
    else acc

/-- `getMessagesFromBattleData`: newest messages first, then reversed to
chronological order. -/
def getMessagesFromBattleData (battleData : BattleData) (limit : ℕ) :
    List BattleMessage :=
  (chunkWalk battleData.chunks limit (battleData.meta.lastChunkIndex + 1).toNat []).reverse

/-- `getRecentMessages`: cache-first, loading and caching on a miss. -/
def getRecentMessages (s : UnifiedBattleLogSystem) (battleId : String) (limit : ℕ) :
    List BattleMessage × UnifiedBattleLogSystem :=
  let g := lruGet s.cache battleId
  match g.1 with
  | some battleData =>
    (getMessagesFromBattleData battleData limit,
     { s with cache := g.2,
              stats := { s.stats with cacheHits := s.stats.cacheHits + 1 } })
  | none =>
    let s := { s with cache := g.2,
                      stats := { s.stats with cacheMisses := s.stats.cacheMisses + 1 } }
    let r := loadBattleFromStorage s battleId
    match r.1 with
    | none => ([], r.2)
    | some battleData =>
      (getMessagesFromBattleData battleData limit,
       { r.2 with cache := lruSet r.2.config.cacheSize r.2.cache battleId battleData })

/-- `getUnreadCount`: the persisted meta's counter, `0` when absent. -/
def getUnreadCount (s : UnifiedBattleLogSystem) (battleId : String) : ℤ :=
  match lookupA s.storage.metas battleId with
  | some meta => meta.unreadCount
  | none => 0

/-- `markMessagesAsRead`.  With explicit ids: flip `isRead` in place on
the cached chunks, then (when anything changed) decrement the unread
count and re-save the chunks.  With `messageIds` omitted: subtract the
`999999` sentinel from the unread count (clamped at 0 by
`updateUnreadCountInMemory`). -/
def markMessagesAsRead (now : ℕ) (s : UnifiedBattleLogSystem) (battleId : String)
    (messageIds : Option (List String)) : UnifiedBattleLogSystem :=
  match messageIds with
  | none => updateUnreadCountInMemory now s battleId (-999999)
  | some ids =>
    let g := lruGet s.cache battleId
    let s := { s with cache := g.2 }
    match g.1 with
    | none => s
    | some battleData =>
      let unreadReduction :=
        (battleData.chunks.map
          (fun pc => (pc.2.messages.filter
            (fun m => decide (m.id ∈ ids) && !m.isRead)).length)).sum
      let battleData' : BattleData :=
        { battleData with chunks :=
          (battleData.chunks.map
            (fun pc => (pc.1, { pc.2 with messages :=
              (pc.2.messages.map
                (fun m => if m.id ∈ ids ∧ m.isRead = false then { m with isRead := true }
                          else m)) }))) }
      let s := { s with cache := mapSetA s.cache battleId battleData' }
      if unreadReduction > 0 then
        let s := updateUnreadCountInMemory now s battleId (-(unreadReduction : ℤ))
        { s with storage :=
            saveBattleChunks s.storage battleId (battleData'.chunks.map Prod.snd) }
      else s

/-- `getAllMetas`: the metas of the global index (absent records
skipped), sorted by `lastUpdated` descending (stable). -/
def getAllMetas (s : UnifiedBattleLogSystem) : List BattleMeta :=
  (s.globalMetaIndex.filterMap (fun bid => lookupA s.storage.metas bid)).insertionSort
    (fun a b => b.lastUpdated ≤ a.lastUpdated)

/-- `clearBattleLog`: remove the battle's cache entry, write buffer,
flush timer and search-index entry, splice it out of the global index,
then remove its meta and chunk records (enumerated through
`loadBattleFromStorage`, which as a side effect re-adds a search-index
entry for the battle — faithful to the source). -/
def clearBattleLog (s : UnifiedBattleLogSystem) (battleId : String) :
    UnifiedBattleLogSystem :=
  let s := { s with cache := eraseKeyA s.cache battleId }
  let s := { s with writeQueues := eraseKeyA s.writeQueues battleId }
  let s := { s with flushTimers := s.flushTimers.erase battleId }
  let s := { s with searchIndex := eraseKeyA s.searchIndex battleId }
  let s :=
    if battleId ∈ s.globalMetaIndex then
      updateGlobalMetaIndex { s with globalMetaIndex := s.globalMetaIndex.erase battleId }
    else s
  let r := loadBattleFromStorage s battleId
  let s2 : UnifiedBattleLogSystem := r.2
  let s3 : UnifiedBattleLogSystem :=
    match r.1 with
    | some battleData =>
      let keys : List ℤ :=
        (List.range (battleData.meta.lastChunkIndex + 1).toNat).map Int.ofNat
      let st : Storage := { s2.storage with metas := eraseKeyA s2.storage.metas battleId }
      let st : Storage := keys.foldl
        (fun st i => { st with chunks := eraseKeyA st.chunks (battleId, i) }) st
      { s2 with storage := st }
    | none => s2
  { s3 with events := s3.events ++ [BattleLogEvent.battleCleared battleId] }

theorem loadBattleFromStorage_globalMetaIndex (s : UnifiedBattleLogSystem)
    (battleId : String) :
    (loadBattleFromStorage s battleId).2.globalMetaIndex = s.globalMetaIndex := by
  cases h1 : lookupA s.storage.metas battleId with
  | none => simp [loadBattleFromStorage, h1]
  | some m =>
    cases h2 : readChunksLoop s.storage battleId
        ((List.range (m.lastChunkIndex + 1).toNat).map Int.ofNat) with
    | none => simp [loadBattleFromStorage, h1, h2]
    | some cs => simp [loadBattleFromStorage, h1, h2]

theorem clearBattleLog_globalMetaIndex (s : UnifiedBattleLogSystem) (battleId : String) :
    (clearBattleLog s battleId).globalMetaIndex = s.globalMetaIndex.erase battleId := by
  unfold clearBattleLog
  by_cases hmem : battleId ∈ s.globalMetaIndex <;>
    simp only [hmem, if_true, if_false, updateGlobalMetaIndex]
  · rcases h1 : (loadBattleFromStorage _ battleId).1 with _ | d <;>
      simp only [h1] <;>
      rw [loadBattleFromStorage_globalMetaIndex]
  · have herase : s.globalMetaIndex.erase battleId = s.globalMetaIndex :=
      List.erase_of_not_mem hmem
    rcases h1 : (loadBattleFromStorage _ battleId).1 with _ | d <;>
      simp only [h1] <;>
      rw [loadBattleFromStorage_globalMetaIndex] <;>
      exact herase.symm

/-- The `for (const battleId of this.globalMetaIndex)` loop of
`clearAllLogs`.  The JS array iterator checks its cursor against the
*current* length of the array each step, and `clearBattleLog` splices
the visited id out of that same array, so the iterator advances past the
element that slid into the vacated slot.  The loop below reproduces
exactly this cursor semantics; `fuel` only bounds the iteration count
(structurally, so the function computes in the kernel) and is never
exhausted when it starts at `length + 1`, since the cursor grows by one
per step while the array never grows. -/
def clearAllLoop : ℕ → UnifiedBattleLogSystem → ℕ → UnifiedBattleLogSystem
  | 0, s, _ => s
  | fuel + 1, s, i =>
    if h : i < s.globalMetaIndex.length then
      clearAllLoop fuel (clearBattleLog s (s.globalMetaIndex.get ⟨i, h⟩)) (i + 1)
    else s

/-- `clearAllLogs`. -/
def clearAllLogs (s : UnifiedBattleLogSystem) : UnifiedBattleLogSystem :=
  let s := clearAllLoop (s.globalMetaIndex.length + 1) s 0
  let s := updateGlobalMetaIndex { s with globalMetaIndex := [] }
  let s := { s with cache := [] }
  let s := { s with searchIndex := [] }
  { s with events := s.events ++ [.allLogsCleared] }

/-- `pruneGlobalIfNeeded` (defined in the source, but — as proved below —
never invoked by any operation). -/
def pruneGlobalIfNeeded (s : UnifiedBattleLogSystem) : UnifiedBattleLogSystem :=
  if s.globalMetaIndex.length > s.config.maxBattlesStored then
    let metas := getAllMetas s
    let sortedMetas := metas.insertionSort (fun a b => a.lastUpdated ≤ b.lastUpdated)
    let battlesToRemove := sortedMetas.take (metas.length - s.config.maxBattlesStored)
    battlesToRemove.foldl (fun s m => clearBattleLog s m.battleId) s
  else s

/-- `searchInBattleIndex`: accumulate per-message match counts from the
inverted index, then materialize each scored position *from the LRU
cache only* (`this.cache.get(battleId)` — there is no storage
fallback). -/
def searchInBattleIndex (cache : List (String × BattleData)) (battleIndex : BattleIndex)
    (queryTokens : List String) (battleId : String) (limit : ℕ) :
    List SearchResult × List (String × BattleData) :=
  let messageScores : List ((ℤ × ℕ) × ℕ) :=
    queryTokens.foldl
      (fun scores token =>
        match lookupA battleIndex token with
        | some positions =>
          positions.foldl
            (fun scores p => mapSetA scores p ((lookupA scores p).getD 0 + 1)) scores
        | none => scores)
      []
  let step := fun (acc : List SearchResult × List (String × BattleData))
      (entry : (ℤ × ℕ) × ℕ) =>
    let g := lruGet acc.2 battleId
    match g.1 with
    | some battleData =>
      match lookupA battleData.chunks entry.1.1 with
      | some chunk =>
        match chunk.messages.get? entry.1.2 with
        | some msg =>
          (acc.1 ++ [{ battleId := battleId, chunkIndex := entry.1.1,
                       messageIndex := entry.1.2, message := msg,
                       relevanceScore := (entry.2 : ℚ) / (queryTokens.length : ℚ) }],
           g.2)
        | none => (acc.1, g.2)
      | none => (acc.1, g.2)
    | none => (acc.1, g.2)
  let r := messageScores.foldl step ([], cache)
  (r.1.take limit, r.2)

/-- `searchMessages`.  With a battle id: search that battle's index;
without: search every battle in the global index and merge.  Results are
stable-sorted by relevance then recency and truncated to `limit`. -/
def searchMessages (s : UnifiedBattleLogSystem) (query : String)
    (battleId? : Option String) (limit : ℕ) :
    List SearchResult × UnifiedBattleLogSystem :=
  let queryTokens :=
    ((query.toLower).split (fun c => c.isWhitespace)).filter (fun t => t.length > 2)
  let rc :=
    match battleId? with
    | some battleId =>
      match lookupA s.searchIndex battleId with
      | some battleIndex => searchInBattleIndex s.cache battleIndex queryTokens battleId limit
      | none => ([], s.cache)
    | none =>
      s.globalMetaIndex.foldl
        (fun (acc : List SearchResult × List (String × BattleData)) bid =>
          match lookupA s.searchIndex bid with
          | some battleIndex =>
            let r := searchInBattleIndex acc.2 battleIndex queryTokens bid limit
            (acc.1 ++ r.1, r.2)
          | none => acc)
        ([], s.cache)
  let sorted := rc.1.insertionSort (fun a b =>
    b.relevanceScore < a.relevanceScore ∨
      (a.relevanceScore = b.relevanceScore ∧ b.message.timestamp ≤ a.message.timestamp))
  (sorted.take limit, { s with cache := rc.2 })

end BattleLog

/-!
## `SkillWebSocketManager`: acknowledgment tracking and retry logic

Sequential model of the manager's send/ack path.  Timers
(`setTimeout`) are modelled by recording the armed action: `ackTimers`
holds `(messageId, fireTime)` pairs armed by `sendMessage` (hard-coded
5000 time-unit timeout), and `retryTimers` holds the delayed resends
the retry branch of `handleMessageFailure` would schedule; the trace of
emitted events is recorded in `events`.
-/

namespace WS

open BattleLog (lookupA mapSetA eraseKeyA)

structure WebSocketConfig where
  reconnectInterval : ℕ
  maxReconnectAttempts : ℕ
  batchInterval : ℕ
  debounceDelay : ℕ
  enableDiffSync : Bool
  enableAckSystem : Bool
  enableRetryLogic : Bool
  maxRetryAttempts : ℕ
  retryDelay : ℕ
deriving DecidableEq, Repr

/-- `DEFAULT_CONFIG` of the manager (the `url` string is omitted). -/
def defaultWSConfig : WebSocketConfig :=
  { reconnectInterval := 3000, maxReconnectAttempts := 5, batchInterval := 200,
    debounceDelay := 100, enableDiffSync := true, enableAckSystem := true,
    enableRetryLogic := true, maxRetryAttempts := 3, retryDelay := 1000 }

/-- The hard-coded acknowledgment timeout of `sendMessage`. -/
def ackTimeoutMs : ℕ := 5000

inductive WSMsgType where
  | skill_update | batch_update | ack | sync_request | sync_response | error
deriving DecidableEq, Repr

/-- `WebSocketMessage`; the `data` payload is opaque to the ack/retry
logic and modelled as a string.  A missing `requiresAck` field is
`false`. -/
structure WebSocketMessage where
  type : WSMsgType
  data : String
  messageId : String
  timestamp : ℕ
  requiresAck : Bool
deriving DecidableEq, Repr

structure AckMessage where
  messageId : String
  success : Bool
  error : Option String
deriving DecidableEq, Repr

inductive Priority where
  | high | medium | low
deriving DecidableEq, Repr

/-- `QueuedMessage` of the WebSocket manager. -/
structure WQueuedMessage where
  message : WebSocketMessage
  retryCount : ℕ
  queuedAt : ℕ
  priority : Priority
deriving DecidableEq, Repr

inductive WSEvent where
  | messageSent (m : WebSocketMessage)
  | messageQueued (q : WQueuedMessage)
  | messageAcknowledged (messageId : String)
  | messageTimeout (messageId : String)
  | messageFailed (messageId : String) (reason : String)
deriving DecidableEq, Repr

/-- The `NetworkStats` counters the modelled operations touch. -/
structure NetworkStats where
  messagesSent : ℕ
  messagesReceived : ℕ
  messagesQueued : ℕ
  messagesFailed : ℕ
deriving DecidableEq, Repr

/-- The `SkillWebSocketManager` state relevant to sending,
acknowledgment and retry (`connectionState` is represented by its
`isConnected` flag, the only part this logic reads). -/
structure SkillWebSocketManager where
  config : WebSocketConfig
  isConnected : Bool
  messageQueue : List WQueuedMessage
  pendingAcks : List (String × (WebSocketMessage × ℕ))
  ackTimers : List (String × ℕ)
  retryTimers : List WebSocketMessage
  stats : NetworkStats
  events : List WSEvent
deriving DecidableEq, Repr

def initManager (config : WebSocketConfig) (isConnected : Bool) : SkillWebSocketManager :=
  { config := config, isConnected := isConnected, messageQueue := [],
    pendingAcks := [], ackTimers := [], retryTimers := [],
    stats := { messagesSent := 0, messagesReceived := 0, messagesQueued := 0,
               messagesFailed := 0 },
    events := [] }

/-- `queueMessage`. -/
def queueMessage (now : ℕ) (s : SkillWebSocketManager) (m : WebSocketMessage)
    (priority : Priority) : SkillWebSocketManager :=
  let q : WQueuedMessage :=
    { message := m, retryCount := 0, queuedAt := now, priority := priority }
  { s with messageQueue := s.messageQueue ++ [q],
           stats := { s.stats with messagesQueued := s.stats.messagesQueued + 1 },
           events := s.events ++ [WSEvent.messageQueued q] }

/-- `sendMessage` (successful `ws.send`; a throwing send would fall
into `queueMessage` like the disconnected path and never tracks an
acknowledgment). -/
def sendMessage (now : ℕ) (s : SkillWebSocketManager) (m : WebSocketMessage) :
    SkillWebSocketManager :=
  if s.isConnected = false then queueMessage now s m Priority.medium
  else
    let s := { s with stats := { s.stats with messagesSent := s.stats.messagesSent + 1 } }
    let s :=
      if m.requiresAck then
        { s with pendingAcks := mapSetA s.pendingAcks m.messageId (m, now),
                 ackTimers := s.ackTimers ++ [(m.messageId, now + ackTimeoutMs)] }
      else s
    { s with events := s.events ++ [WSEvent.messageSent m] }

/-- `queuedMessage.retryCount++` on the first queue entry with the
given message id. -/
def bumpRetryCount : List WQueuedMessage → String → List WQueuedMessage
  | [], _ => []
  | qm :: t, mid =>
    if qm.message.messageId = mid then { qm with retryCount := qm.retryCount + 1 } :: t
    else qm :: bumpRetryCount t mid

/-- `handleMessageFailure`: look the message up in `messageQueue`; if
found with remaining retry budget, bump its count and schedule a
delayed `sendMessage`; otherwise mark it failed and report. -/
def handleMessageFailure (s : SkillWebSocketManager) (m : WebSocketMessage) :
    SkillWebSocketManager :=
  if s.config.enableRetryLogic = false then s
  else
    match s.messageQueue.find? (fun qm => qm.message.messageId = m.messageId) with
    | some qm =>
      if qm.retryCount < s.config.maxRetryAttempts then
        { s with messageQueue := bumpRetryCount s.messageQueue m.messageId,
                 retryTimers := s.retryTimers ++ [m] }
      else
        { s with stats := { s.stats with messagesFailed := s.stats.messagesFailed + 1 },
                 events := s.events ++
                   [WSEvent.messageFailed m.messageId "Max retry attempts reached"] }
    | none =>
      { s with stats := { s.stats with messagesFailed := s.stats.messagesFailed + 1 },
               events := s.events ++
                 [WSEvent.messageFailed m.messageId "Max retry attempts reached"] }

/-- `handleAck`. -/
def handleAck (s : SkillWebSocketManager) (ackData : AckMessage) :
    SkillWebSocketManager :=
  match lookupA s.pendingAcks ackData.messageId with
  | none => s
  | some p =>
    let s := { s with pendingAcks := eraseKeyA s.pendingAcks ackData.messageId }
    if ackData.success then
      { s with events := s.events ++ [WSEvent.messageAcknowledged ackData.messageId] }
    else
      handleMessageFailure
        { s with events := s.events ++
            [WSEvent.messageFailed ackData.messageId ((ackData.error).getD "")] }
        p.1

/-- `handleAckTimeout` (the `setTimeout` callback guard
`pendingAcks.has(messageId)` is the `none` branch). -/
def handleAckTimeout (s : SkillWebSocketManager) (messageId : String) :
    SkillWebSocketManager :=
  match lookupA s.pendingAcks messageId with
  | none => s
  | some p =>
    let s := { s with pendingAcks := eraseKeyA s.pendingAcks messageId }
    let s := { s with events := s.events ++ [WSEvent.messageTimeout messageId] }
    handleMessageFailure s p.1

def priorityOrder : Priority → ℕ
  | .high => 3
  | .medium => 2
  | .low => 1

/-- `processMessageQueue`: sort pending items by priority, *clear the
queue*, then re-send each item. -/
def processMessageQueue (now : ℕ) (s : SkillWebSocketManager) : SkillWebSocketManager :=
  if s.messageQueue.isEmpty then s
  else
    let sorted := s.messageQueue.insertionSort
      (fun a b => priorityOrder b.priority ≤ priorityOrder a.priority)
    let s := { s with messageQueue := [] }
    sorted.foldl (fun s qm => sendMessage now s qm.message) s

end WS

/-!
## Interleaving model for concurrent flushes

`flushBattle` runs on a single-threaded cooperative runtime; its only
synchronous prefix reads the write queue (early-returning when it is
empty) and then suspends on `mutex.acquire()`.  Every other suspension
point lies inside the critical section, where a competing flush of the
*same* log can only be (a) not yet started, (b) blocked on the mutex,
or (c) already done — the sole step such a competitor can take is its
synchronous prefix, which only *reads* shared state.  The write queue
it captures is an array reference that the critical section never
mutates (the queue is cleared by *replacing* it with a fresh empty
array), so the captured contents are fixed at capture time.  The model
below therefore gives each flush task two atomic steps — the prefix
(`ready → done/blocked/critical`) and the critical section including
`mutex.release()` — which preserves every outcome distinguishable by
the persisted chunk records.

Chunk persistence is recorded as a write journal `(chunkIndex, messages)`
in write order: since `AsyncStorage` overwrites on a repeated key,
"no two chunks persisted at the same index" is exactly distinctness of
the journal keys.
-/

namespace Conc

/-- The phase of one `flushBattle(battleId)` invocation.  `blocked` and
`critical` carry the captured write-queue contents. -/
inductive TaskPhase where
  | ready
  | blocked (captured : List ℕ)
  | critical (captured : List ℕ)
  | done
deriving DecidableEq, Repr

/-- The `Mutex` class: a flag plus a FIFO of suspended acquirers
(task identifiers). -/
structure MutexState where
  locked : Bool
  queue : List Bool
deriving DecidableEq, Repr

/-- Two concurrent `flushBattle` invocations on one log: the log's
write queue (messages abstracted to numbers), its cached/stored
`lastChunkIndex`, the chunk-write journal, the log's mutex, and the two
tasks. -/
structure FlushRace where
  writeQueue : List ℕ
  lastChunkIndex : ℤ
  persisted : List (ℤ × List ℕ)
  mutex : MutexState
  task0 : TaskPhase
  task1 : TaskPhase
deriving DecidableEq, Repr

def getTask (s : FlushRace) (i : Bool) : TaskPhase :=
  if i then s.task1 else s.task0

def setTask (s : FlushRace) (i : Bool) (p : TaskPhase) : FlushRace :=
  if i then { s with task1 := p } else { s with task0 := p }

/-- The synchronous prefix of `flushBattle`: read the queue (a captured
array reference), early-return when empty, otherwise `mutex.acquire()` —
entering the critical section when the mutex is free, suspending in its
FIFO otherwise. -/
def startStep (s : FlushRace) (i : Bool) : FlushRace :=
  let q := s.writeQueue
  if q.isEmpty then setTask s i TaskPhase.done
  else if s.mutex.locked then
    setTask { s with mutex := { s.mutex with queue := s.mutex.queue ++ [i] } } i
      (TaskPhase.blocked q)
  else
    setTask { s with mutex := { s.mutex with locked := true } } i (TaskPhase.critical q)

/-- The critical section: create the chunk at `lastChunkIndex + 1` from
the captured queue, persist it, bump `lastChunkIndex`, replace the
write queue with a fresh empty array, then `mutex.release()` (handing
the lock to the first waiter, waking it into its critical section with
its own captured queue). -/
def criticalStep (s : FlushRace) (i : Bool) (q : List ℕ) : FlushRace :=
  let k := s.lastChunkIndex + 1
  let s := { s with persisted := s.persisted ++ [(k, q)], lastChunkIndex := k,
                    writeQueue := [] }
  let s := setTask s i TaskPhase.done
  match s.mutex.queue with
  | [] => { s with mutex := { locked := false, queue := [] } }
  | w :: rest =>
    let s := { s with mutex := { locked := true, queue := rest } }
    match getTask s w with
    | TaskPhase.blocked cq => setTask s w (TaskPhase.critical cq)
    | _ => s

/-- One scheduler step: run the enabled atomic step of task `i`
(blocked and finished tasks have none). -/
def step (s : FlushRace) (i : Bool) : FlushRace :=
  match getTask s i with
  | TaskPhase.ready => startStep s i
  | TaskPhase.critical q => criticalStep s i q
  | TaskPhase.blocked _ => s
  | TaskPhase.done => s

/-- Run a schedule (an arbitrary interleaving of the two tasks). -/
def run (s : FlushRace) (sched : List Bool) : FlushRace :=
  sched.foldl step s

/-- Both flushes freshly invoked on a log whose write queue holds `q`
and whose highest chunk index so far is `last`. -/
def initRace (q : List ℕ) (last : ℤ) : FlushRace :=
  { writeQueue := q, lastChunkIndex := last, persisted := [],
    mutex := { locked := false, queue := [] },
    task0 := TaskPhase.ready, task1 := TaskPhase.ready }

/-- Flushes of two different logs go through two different `Mutex`
objects (`getMutex` keys mutexes by battle id), so a flush of log B
touches only B's state.  Log A's mutex is represented by a bare flag
the B-task never reads. -/
structure TwoLogRace where
  mutexALocked : Bool
  mutexB : MutexState
  queueB : List ℕ
  lastB : ℤ
  persistedB : List (ℤ × List ℕ)
  taskB : TaskPhase
deriving DecidableEq, Repr

/-- One atomic step of the flush of log B (same two-phase semantics as
`step`, against B's own mutex only). -/
def stepB (s : TwoLogRace) : TwoLogRace :=
  match s.taskB with
  | TaskPhase.ready =>
    if s.queueB.isEmpty then { s with taskB := TaskPhase.done }
    else if s.mutexB.locked then
      { s with mutexB := { s.mutexB with queue := s.mutexB.queue ++ [true] },
               taskB := TaskPhase.blocked s.queueB }
    else
      { s with mutexB := { s.mutexB with locked := true },
               taskB := TaskPhase.critical s.queueB }
  | TaskPhase.critical q =>
    let k := s.lastB + 1
    { s with persistedB := s.persistedB ++ [(k, q)], lastB := k, queueB := [],
             taskB := TaskPhase.done,
             mutexB := { locked := false, queue := s.mutexB.queue } }
  | _ => s

end Conc


/-! ## Concrete scenarios driving the model -/

namespace BattleLog

/-- A caller payload for log `bid`. -/
def payloadFor (bid senderName content : String) : MessagePayload :=
  { battleId := bid, senderId := "s1", senderName := senderName, content := content,
    type := MsgType.player, serverSeq := none, serverTimestamp := none, editVersion := none }

/-- Enqueue one message (with id and time `j`) on `bid`, then run the
scheduled flush (the flush timer firing). -/
def enqFlush (s : UnifiedBattleLogSystem) (bid : String) (j : ℕ) : UnifiedBattleLogSystem :=
  flushBattle szZero false false j
    (enqueueMessage szZero (toString j) j s bid (payloadFor bid "Rimuru" "hello world")).2 bid

/-- Eleven one-message flushes on log `"b"` under the default
configuration: one chunk more than `maxChunksPerBattle`, so the last
flush triggers per-battle pruning. -/
def elevenFlushState : UnifiedBattleLogSystem :=
  (List.range 11).foldl (fun s j => enqFlush s "b" j) (initSystem DEFAULT_CONFIG)

/-- Twenty-one one-message logs `"b0" … "b20"` under the default
configuration: one log more than `maxBattlesStored`. -/
def twentyOneState : UnifiedBattleLogSystem :=
  (List.range 21).foldl (fun s j => enqFlush s ("b" ++ toString j) j)
    (initSystem DEFAULT_CONFIG)

/-- Two one-message logs `"A"`, `"B"`, then `clearAllLogs`. -/
def twoLogState : UnifiedBattleLogSystem :=
  enqFlush (enqFlush (initSystem DEFAULT_CONFIG) "A" 0) "B" 1

def clearedAllState : UnifiedBattleLogSystem := clearAllLogs twoLogState

/-! ## Supporting lemmas -/

theorem saveBattleMeta_chunks (st : Storage) (meta : BattleMeta) :
    (saveBattleMeta st meta).chunks = st.chunks := rfl

theorem isSome_lookupA_foldl_mapSetA {κ α β : Type} [DecidableEq κ]
    (g : β → κ) (h : β → α) (cs : List β) (l : List (κ × α)) (key : κ)
    (hs : (lookupA l key).isSome) :
    (lookupA (cs.foldl (fun m c => mapSetA m (g c) (h c)) l) key).isSome := by
  induction cs generalizing l with
  | nil => exact hs
  | cons c t ih =>
    exact ih (mapSetA l (g c) (h c)) (lookupA_isSome_mapSetA l (g c) key (h c) hs)

theorem isSome_lookupA_saveBattleChunks (st : Storage) (battleId : String)
    (cs : List MessageChunk) (key : String × ℤ)
    (hs : (lookupA st.chunks key).isSome) :
    (lookupA (saveBattleChunks st battleId cs).chunks key).isSome := by
  unfold saveBattleChunks
  exact isSome_lookupA_foldl_mapSetA (fun c => (battleId, c.chunkIndex))
    (fun c => encodeChunk c) cs st.chunks key hs

/-- Per-battle pruning never removes a chunk record from the store:
any chunk key present before `pruneBattleIfNeeded` is present after. -/
theorem pruneBattleIfNeeded_preserves_chunk_records
    (s : UnifiedBattleLogSystem) (battleId : String) (key : String × ℤ)
    (hs : (lookupA s.storage.chunks key).isSome = true) :
    (lookupA (pruneBattleIfNeeded s battleId).storage.chunks key).isSome = true := by
  simp only [pruneBattleIfNeeded]
  split
  · exact hs
  · split
    · rw [saveBattleMeta_chunks]
      exact isSome_lookupA_saveBattleChunks _ battleId _ key hs
    · exact hs

end BattleLog

/-! ## Claim C1: per-battle retention -/

namespace BattleLog

set_option maxRecDepth 100000 in
/-- C1 (counterexample).  After enough flushes to exceed
`maxChunksPerBattle` (11 chunks vs cap 10 under the default
configuration), the claim says the oldest chunk is dropped from the
persistent key-value store and becomes unreadable — but its record is
still present under `battle_log_chunk_b_0`, and a fresh
`loadBattleFromStorage` still returns it with its message. -/
theorem c1_counterexample :
    DEFAULT_CONFIG.maxChunksPerBattle = 10 ∧
    elevenFlushState.stats.flushes = 11 ∧
    (lookupA elevenFlushState.storage.chunks ("b", 0)).isSome = true ∧
    ((loadBattleFromStorage elevenFlushState "b").1.map
      (fun d => (lookupA d.chunks (0 : ℤ)).map (fun c => c.messages.map BattleMessage.id))) =
      some (some ["0"]) := by decide

set_option maxRecDepth 100000 in
/-- C1 (amended).  After a flush that leaves more than
`maxChunksPerBattle` cached chunks, the oldest surplus chunks are
dropped from the in-memory cache only; pruning never deletes a chunk
record from the persistent store (it only re-saves the survivors), so
the oldest chunks remain readable on a fresh load, while
`lastChunkIndex` is not decremented and the `totalMessages` bookkeeping
and newest messages remain intact. -/
theorem c1_pruning_amended :
    (∀ (s : UnifiedBattleLogSystem) (battleId : String) (key : String × ℤ),
        (lookupA s.storage.chunks key).isSome = true →
        (lookupA (pruneBattleIfNeeded s battleId).storage.chunks key).isSome = true) ∧
    ((lookupA elevenFlushState.cache "b").map (fun d => d.chunks.map Prod.fst) =
        some ((List.range 10).map (fun j => Int.ofNat (j + 1))) ∧
     (lookupA elevenFlushState.storage.metas "b").map
        (fun m => (m.lastChunkIndex, m.totalMessages)) = some (10, 11) ∧
     (getRecentMessages elevenFlushState "b" 11).1.map BattleMessage.id =
        (List.range 10).map (fun j => toString (j + 1))) := by
  constructor
  · exact fun s battleId key hs =>
      pruneBattleIfNeeded_preserves_chunk_records s battleId key hs
  · decide

set_option maxRecDepth 100000 in
/-- Witness for the hypothesis of `c1_pruning_amended`. -/
theorem c1_pruning_amended_witness :
    (lookupA (pruneBattleIfNeeded elevenFlushState "b").storage.chunks
      ("b", 0)).isSome = true :=
  c1_pruning_amended.1 elevenFlushState "b" ("b", 0) (by decide)

end BattleLog

/-! ## Claim C2: `clearAllLogs` -/

namespace BattleLog

set_option maxRecDepth 100000 in
/-- C2 (code bug).  `clearAllLogs` iterates `for (const battleId of
this.globalMetaIndex)` while `clearBattleLog` splices the visited id
out of that same array, so with two logs `["A", "B"]` the iterator
skips `"B"`: afterwards `"B"`'s meta and chunk records are still in the
persistent store and its write-buffer entry survives, although the
global index, cache, and search index were wiped wholesale. -/
theorem c2_clearAll_skips_second_log :
    twoLogState.globalMetaIndex = ["A", "B"] ∧
    lookupA clearedAllState.storage.metas "A" = none ∧
    lookupA clearedAllState.storage.chunks ("A", 0) = none ∧
    (lookupA clearedAllState.storage.metas "B").isSome = true ∧
    (lookupA clearedAllState.storage.chunks ("B", 0)).isSome = true ∧
    (lookupA clearedAllState.writeQueues "B").isSome = true ∧
    clearedAllState.globalMetaIndex = [] ∧
    clearedAllState.cache = [] ∧
    clearedAllState.searchIndex = [] := by decide

end BattleLog

/-! ## Claim C5: global retention cap -/

namespace BattleLog

set_option maxRecDepth 100000 in
/-- C5 (counterexample).  Creating and flushing a 21st log under the
default configuration (cap `maxBattlesStored = 20`) leaves all 21 logs
fully stored — no operation ever invokes `pruneGlobalIfNeeded`.  Had it
been invoked, it would have cleared exactly the least-recently-updated
log `"b0"` down to the cap, as the last two conjuncts show. -/
theorem c5_global_cap_not_enforced :
    DEFAULT_CONFIG.maxBattlesStored = 20 ∧
    twentyOneState.globalMetaIndex.length = 21 ∧
    (∀ bid ∈ twentyOneState.globalMetaIndex,
      (lookupA twentyOneState.storage.metas bid).isSome = true) ∧
    (pruneGlobalIfNeeded twentyOneState).globalMetaIndex.length = 20 ∧
    lookupA (pruneGlobalIfNeeded twentyOneState).storage.metas "b0" = none ∧
    lookupA (pruneGlobalIfNeeded twentyOneState).storage.chunks ("b0", 0) = none := by
  decide

end BattleLog

/-! ## Claim C6: decompression/parse fallback on load -/

namespace BattleLog

def c6meta : BattleMeta :=
  { battleId := "b", startTime := 0, lastChunkIndex := 1, lastUpdated := 2,
    participants := [], totalMessages := 2, unreadCount := 0,
    isArchived := false, compressionUsed := false }

def c6chunk1 : MessageChunk :=
  { battleId := "b", chunkIndex := 1,
    messages := [mkFullMessage "m1" 1 (payloadFor "b" "Veldora" "counters with wind")],
    compressed := false, size := 0, createdAt := 1 }

/-- A stored log whose chunk 0 record is corrupt (fails to parse even
as a raw payload) while chunk 1 is readable. -/
def c6state : UnifiedBattleLogSystem :=
  { initSystem DEFAULT_CONFIG with
      storage := { metas := [("b", c6meta)],
                   chunks := [(("b", 0), StoredChunk.unreadable),
                              (("b", 1), StoredChunk.rawOk c6chunk1)],
                   index := some ["b"] },
      globalMetaIndex := ["b"] }

/-- The same log with the chunk 0 record absent instead of corrupt. -/
def c6missingState : UnifiedBattleLogSystem :=
  { initSystem DEFAULT_CONFIG with
      storage := { metas := [("b", c6meta)],
                   chunks := [(("b", 1), StoredChunk.rawOk c6chunk1)],
                   index := some ["b"] },
      globalMetaIndex := ["b"] }

theorem foldlM_option_eq_none {α β : Type} (f : β → α → Option β) (l : List α) (x : α)
    (hx : x ∈ l) (hf : ∀ acc, f acc x = none) :
    ∀ init, l.foldlM f init = none := by
  induction l with
  | nil => cases hx
  | cons a t ih =>
    intro init
    rcases List.mem_cons.mp hx with h | h
    · subst h
      simp [List.foldlM_cons, hf init]
    · cases hfa : f init a with
      | none => simp [List.foldlM_cons, hfa]
      | some b =>
        simp only [List.foldlM_cons, hfa, Option.bind_some]
        exact ih h b

/-- C6 (counterexample).  One corrupt chunk record makes the whole load
fail: `loadBattleFromStorage` returns `null` (meta and the perfectly
readable chunk 1 included), counts an error, and `getRecentMessages`
consequently returns nothing — not a single-chunk skip. -/
theorem c6_counterexample :
    (lookupA c6state.storage.metas "b").isSome = true ∧
    lookupA c6state.storage.chunks ("b", 1) = some (StoredChunk.rawOk c6chunk1) ∧
    decodeStoredChunk (StoredChunk.rawOk c6chunk1) = some c6chunk1 ∧
    (loadBattleFromStorage c6state "b").1 = none ∧
    (loadBattleFromStorage c6state "b").2.stats.errors = c6state.stats.errors + 1 ∧
    (getRecentMessages c6state "b" 50).1 = [] := by decide

/-- C6 (amended).  A payload that fails to lz-decompress is indeed
re-tried as a raw payload (first conjunct, `rawOk` decodes), and a
chunk whose *record is absent* is skipped with the rest of the load
succeeding (last conjunct); but a *present* chunk record that fails to
parse aborts the entire load, which returns no data at all (middle
conjunct) — there is no per-chunk skip of unreadable payloads. -/
theorem c6_load_abort_amended :
    (∀ c, decodeStoredChunk (StoredChunk.rawOk c) = some c) ∧
    (∀ (s : UnifiedBattleLogSystem) (battleId : String) (meta : BattleMeta) (i : ℤ),
      lookupA s.storage.metas battleId = some meta →
      0 ≤ i → i ≤ meta.lastChunkIndex →
      lookupA s.storage.chunks (battleId, i) = some StoredChunk.unreadable →
      (loadBattleFromStorage s battleId).1 = none) ∧
    ((loadBattleFromStorage c6missingState "b").1 =
      some { meta := c6meta, chunks := [((1 : ℤ), c6chunk1)] }) := by
  refine ⟨fun c => rfl, ?_, by decide⟩
  intro s battleId meta i hm h0 hle hu
  have hmem : i ∈ (List.range (meta.lastChunkIndex + 1).toNat).map Int.ofNat := by
    refine List.mem_map.mpr ⟨i.toNat, List.mem_range.mpr (by omega), ?_⟩
    exact Int.toNat_of_nonneg h0
  have habort : readChunksLoop s.storage battleId
      ((List.range (meta.lastChunkIndex + 1).toNat).map Int.ofNat) = none := by
    unfold readChunksLoop
    refine foldlM_option_eq_none _ _ i hmem (fun acc => ?_) []
    show (match lookupA s.storage.chunks (battleId, i) with
      | none => some acc
      | some payload =>
        match decodeStoredChunk payload with
        | some c => some (mapSetA acc i c)
        | none => none) = none
    rw [hu]
    rfl
  unfold loadBattleFromStorage
  rw [hm]
  simp only [habort]

/-- Witness for the hypotheses of `c6_load_abort_amended`. -/
theorem c6_load_abort_amended_witness :
    (loadBattleFromStorage c6state "b").1 = none :=
  c6_load_abort_amended.2.1 c6state "b" c6meta 0 (by decide) (by decide) (by decide)
    (by decide)

end BattleLog

/-! ## Claim C7: acknowledgment failure and retry -/

namespace WS

open BattleLog (lookupA)

def c7msg : WebSocketMessage :=
  { type := WSMsgType.batch_update, data := "batch", messageId := "msg_1",
    timestamp := 0, requiresAck := true }

/-- A connected manager that has just sent `c7msg` with ack tracking. -/
def c7sent : SkillWebSocketManager :=
  sendMessage 0 (initManager defaultWSConfig true) c7msg

def c7afterTimeout : SkillWebSocketManager := handleAckTimeout c7sent "msg_1"

def c7afterNack : SkillWebSocketManager :=
  handleAck c7sent { messageId := "msg_1", success := false, error := some "rejected" }

/-- C7 (code bug).  A message sent while connected is tracked in
`pendingAcks` but never sits in `messageQueue` (only messages that were
*not* sent are queued, and `processMessageQueue` empties the queue
before re-sending), so on an acknowledgment timeout — or a negative
acknowledgment — `handleMessageFailure`'s queue lookup misses, no retry
is ever scheduled, no retry count is consumed, and the message is
immediately reported failed with "Max retry attempts reached", despite
`maxRetryAttempts = 3` and `retryDelay = 1000` being configured. -/
theorem c7_no_retry_on_ack_failure :
    (lookupA c7sent.pendingAcks "msg_1").isSome = true ∧
    c7sent.ackTimers = [("msg_1", ackTimeoutMs)] ∧
    ackTimeoutMs = 5000 ∧
    c7sent.messageQueue = [] ∧
    c7afterTimeout.retryTimers = [] ∧
    c7afterTimeout.messageQueue = [] ∧
    c7afterTimeout.stats.messagesFailed = 1 ∧
    c7afterTimeout.events = c7sent.events ++
      [WSEvent.messageTimeout "msg_1",
       WSEvent.messageFailed "msg_1" "Max retry attempts reached"] ∧
    c7afterNack.retryTimers = [] ∧
    c7afterNack.stats.messagesFailed = 1 ∧
    c7afterNack.events = c7sent.events ++
      [WSEvent.messageFailed "msg_1" "rejected",
       WSEvent.messageFailed "msg_1" "Max retry attempts reached"] ∧
    defaultWSConfig.maxRetryAttempts = 3 ∧
    defaultWSConfig.retryDelay = 1000 := by decide

end WS

/-! ## Claim C9: mark-all-read zeroes the unread count -/

namespace BattleLog

def c9meta : BattleMeta :=
  { battleId := "b", startTime := 0, lastChunkIndex := -1, lastUpdated := 0,
    participants := [], totalMessages := 1000000, unreadCount := 1000000,
    isArchived := false, compressionUsed := false }

def c9state : UnifiedBattleLogSystem :=
  { initSystem DEFAULT_CONFIG with
      storage := { metas := [("b", c9meta)], chunks := [], index := some ["b"] },
      globalMetaIndex := ["b"] }

def c9smallMeta : BattleMeta :=
  { battleId := "b", startTime := 0, lastChunkIndex := -1, lastUpdated := 0,
    participants := [], totalMessages := 3, unreadCount := 3,
    isArchived := false, compressionUsed := false }

def c9small : UnifiedBattleLogSystem :=
  { initSystem DEFAULT_CONFIG with
      storage := { metas := [("b", c9smallMeta)], chunks := [], index := some ["b"] },
      globalMetaIndex := ["b"] }

/-- C9 (counterexample).  "Mark all read" subtracts the sentinel
`999999` (clamped at 0) instead of zeroing: with a prior unread count
of `1000000` the persisted count afterwards is `1`, not `0`. -/
theorem c9_counterexample :
    (lookupA c9state.storage.metas "b").map BattleMeta.unreadCount = some 1000000 ∧
    getUnreadCount (markMessagesAsRead 5 c9state "b" none) "b" = 1 := by decide

/-- C9 (amended).  `markMessagesAsRead(battleId)` with the ids argument
omitted leaves the persisted unread count at exactly
`max 0 (unread − 999999)`, which is `0` precisely when the prior count
does not exceed the `999999` sentinel. -/
theorem c9_markAllRead_amended (now : ℕ) (s : UnifiedBattleLogSystem)
    (battleId : String) (meta : BattleMeta)
    (hm : lookupA s.storage.metas battleId = some meta)
    (hle : meta.unreadCount ≤ 999999) :
    getUnreadCount (markMessagesAsRead now s battleId none) battleId = 0 := by
  unfold markMessagesAsRead updateUnreadCountInMemory
  rw [hm]
  unfold getUnreadCount
  simp only [lookupA_mapSetA_self]
  omega

/-- Witness for the hypotheses of `c9_markAllRead_amended`. -/
theorem c9_markAllRead_amended_witness :
    getUnreadCount (markMessagesAsRead 7 c9small "b" none) "b" = 0 :=
  c9_markAllRead_amended 7 c9small "b" c9smallMeta (by decide) (by decide)

end BattleLog

/-! ## Claim C8: concurrent flush safety -/

namespace Conc

@[simp] theorem setTask_persisted (s : FlushRace) (i : Bool) (p : TaskPhase) :
    (setTask s i p).persisted = s.persisted := by
  unfold setTask; split <;> rfl

@[simp] theorem setTask_lastChunkIndex (s : FlushRace) (i : Bool) (p : TaskPhase) :
    (setTask s i p).lastChunkIndex = s.lastChunkIndex := by
  unfold setTask; split <;> rfl

/-- All persisted chunk indices are bounded by the running
`lastChunkIndex`, and no index has been written twice. -/
def RaceInv (s : FlushRace) : Prop :=
  (∀ p ∈ s.persisted, p.1 ≤ s.lastChunkIndex) ∧ (s.persisted.map Prod.fst).Nodup

theorem raceInv_of_fields {s t : FlushRace} (hp : t.persisted = s.persisted)
    (hl : t.lastChunkIndex = s.lastChunkIndex) (h : RaceInv s) : RaceInv t := by
  unfold RaceInv at h ⊢
  rw [hp, hl]
  exact h

theorem startStep_persisted (s : FlushRace) (i : Bool) :
    (startStep s i).persisted = s.persisted := by
  simp only [startStep]
  split_ifs <;> simp

theorem startStep_lastChunkIndex (s : FlushRace) (i : Bool) :
    (startStep s i).lastChunkIndex = s.lastChunkIndex := by
  simp only [startStep]
  split_ifs <;> simp

theorem startStep_inv (s : FlushRace) (i : Bool) (h : RaceInv s) :
    RaceInv (startStep s i) :=
  raceInv_of_fields (startStep_persisted s i) (startStep_lastChunkIndex s i) h

theorem criticalStep_persisted (s : FlushRace) (i : Bool) (q : List ℕ) :
    (criticalStep s i q).persisted = s.persisted ++ [(s.lastChunkIndex + 1, q)] := by
  simp only [criticalStep]
  split
  · simp
  · split <;> simp

theorem criticalStep_lastChunkIndex (s : FlushRace) (i : Bool) (q : List ℕ) :
    (criticalStep s i q).lastChunkIndex = s.lastChunkIndex + 1 := by
  simp only [criticalStep]
  split
  · simp
  · split <;> simp

theorem criticalStep_inv (s : FlushRace) (i : Bool) (q : List ℕ) (h : RaceInv s) :
    RaceInv (criticalStep s i q) := by
  constructor
  · intro p hp
    rw [criticalStep_persisted] at hp
    rw [criticalStep_lastChunkIndex]
    rcases List.mem_append.mp hp with hmem | hmem
    · have := h.1 p hmem
      omega
    · rcases List.mem_singleton.mp hmem with rfl
      simp
  · rw [criticalStep_persisted]
    simp only [List.map_append, List.map_cons, List.map_nil]
    rw [List.nodup_append]
    refine ⟨h.2, List.nodup_singleton _, ?_⟩
    intro a ha hb
    rcases List.mem_singleton.mp hb with rfl
    rcases List.mem_map.mp ha with ⟨p, hp, hfst⟩
    have := h.1 p hp
    omega

theorem step_inv (s : FlushRace) (i : Bool) (h : RaceInv s) : RaceInv (step s i) := by
  unfold step
  split
  · exact startStep_inv s i h
  · exact criticalStep_inv s i _ h
  · exact h
  · exact h

theorem run_inv (sched : List Bool) (s : FlushRace) (h : RaceInv s) :
    RaceInv (run s sched) := by
  induction sched generalizing s with
  | nil => exact h
  | cons i t ih => exact ih (step s i) (step_inv s i h)

def initTwoLog (lockedA : Bool) (q : List ℕ) : TwoLogRace :=
  { mutexALocked := lockedA, mutexB := { locked := false, queue := [] },
    queueB := q, lastB := -1, persistedB := [], taskB := TaskPhase.ready }

end Conc

/-- C8.  (1) For every interleaving of two concurrently initiated
`flushBattle` calls on the same log (every schedule of the `Conc.step`
machine from `initRace`), the journal of persisted chunk writes never
contains the same chunk index twice — the `Mutex` serializes the two
critical sections, and each reads `lastChunkIndex` only after
acquiring.  (2) A flush of log B runs to completion in its own two
steps, persisting its chunk, regardless of the state of log A's mutex,
which it never consults (`getMutex` keys mutexes by battle id) — so
flushes of different logs do not block each other. -/
theorem c8_concurrent_flush_safety :
    (∀ (sched : List Bool) (q : List ℕ) (last : ℤ),
      ((Conc.run (Conc.initRace q last) sched).persisted.map Prod.fst).Nodup) ∧
    (∀ (lockedA : Bool) (q : List ℕ), q ≠ [] →
      (Conc.stepB (Conc.stepB (Conc.initTwoLog lockedA q))).taskB = Conc.TaskPhase.done ∧
      (Conc.stepB (Conc.stepB (Conc.initTwoLog lockedA q))).persistedB = [((0 : ℤ), q)] ∧
      (Conc.stepB (Conc.stepB (Conc.initTwoLog lockedA q))).mutexALocked = lockedA) := by
  constructor
  · intro sched q last
    refine (Conc.run_inv sched (Conc.initRace q last) ?_).2
    exact ⟨fun p hp => absurd hp (List.not_mem_nil p), List.nodup_nil⟩
  · intro lockedA q hq
    cases q with
    | nil => exact absurd rfl hq
    | cons a t =>
      refine ⟨rfl, ?_, rfl⟩
      show [((-1 : ℤ) + 1, a :: t)] = [((0 : ℤ), a :: t)]
      norm_num

/-- Witness for the hypothesis in part (2) of
`c8_concurrent_flush_safety`. -/
theorem c8_concurrent_flush_safety_witness :
    (Conc.stepB (Conc.stepB (Conc.initTwoLog false [5]))).taskB = Conc.TaskPhase.done ∧
    (Conc.stepB (Conc.stepB (Conc.initTwoLog false [5]))).persistedB = [((0 : ℤ), [5])] ∧
    (Conc.stepB (Conc.stepB (Conc.initTwoLog false [5]))).mutexALocked = false :=
  c8_concurrent_flush_safety.2 false [5] (by decide)

/-! ## Claim C10: search materializes from the cache only -/

namespace BattleLog

theorem lookupA_eraseKeyA_ne {κ α : Type} [DecidableEq κ]
    (l : List (κ × α)) (k k' : κ) (hne : k' ≠ k) :
    lookupA (eraseKeyA l k) k' = lookupA l k' := by
  induction l with
  | nil => simp
  | cons h t ih =>
    obtain ⟨a, w⟩ := h
    by_cases hk : k = a
    · subst hk
      simp [hne]
    · by_cases hk' : k' = a <;> simp [hk, hk', ih]

/-- An LRU `get` never changes what other lookups see a key as absent:
a key missing before the recency refresh is missing after. -/
theorem lookupA_lruGet_snd_of_none {α : Type} (c : List (String × α))
    (k bid : String) (h : lookupA c bid = none) :
    lookupA (lruGet c k).2 bid = none := by
  unfold lruGet
  cases hk : lookupA c k with
  | none => exact h
  | some v =>
    by_cases hbk : bid = k
    · subst hbk
      rw [h] at hk
      cases hk
    · simp only
      rw [lookupA_append, lookupA_eraseKeyA_ne c k bid hbk, h]
      simp [hbk]

/-- `searchInBattleIndex` on a battle whose data is not resident in the
LRU cache returns no results and leaves the cache untouched, no matter
what the inverted index holds. -/
theorem searchInBattleIndex_cache_miss (cache : List (String × BattleData))
    (battleIndex : BattleIndex) (queryTokens : List String) (battleId : String)
    (limit : ℕ) (h : lookupA cache battleId = none) :
    (searchInBattleIndex cache battleIndex queryTokens battleId limit).1 = [] ∧
    (searchInBattleIndex cache battleIndex queryTokens battleId limit).2 = cache := by
  unfold searchInBattleIndex
  simp only
  have hfold : ∀ (l : List ((ℤ × ℕ) × ℕ)) (rs : List SearchResult)
      (c : List (String × BattleData)), lookupA c battleId = none →
      (l.foldl (fun acc entry =>
        match (lruGet acc.2 battleId).1 with
        | some battleData =>
          match lookupA battleData.chunks entry.1.1 with
          | some chunk =>
            match chunk.messages.get? entry.1.2 with
            | some msg =>
              (acc.1 ++ [{ battleId := battleId, chunkIndex := entry.1.1,
                           messageIndex := entry.1.2, message := msg,
                           relevanceScore := (entry.2 : ℚ) / (queryTokens.length : ℚ) }],
               (lruGet acc.2 battleId).2)
            | none => (acc.1, (lruGet acc.2 battleId).2)
          | none => (acc.1, (lruGet acc.2 battleId).2)
        | none => (acc.1, (lruGet acc.2 battleId).2)) (rs, c)) = (rs, c) := by
    intro l
    induction l with
    | nil => intro rs c hc; rfl
    | cons e t ih =>
      intro rs c hc
      have hget : lruGet c battleId = (none, c) := by
        unfold lruGet
        rw [hc]
      rw [List.foldl_cons]
      simp only [hget]
      exact ih rs c hc
  rw [hfold _ [] cache h]
  exact ⟨by simp, rfl⟩

/-- Every result `searchInBattleIndex` produces carries the battle id
it was asked about, and the recency refreshes it performs never make a
missing cache key present. -/
theorem searchInBattleIndex_results (cache : List (String × BattleData))
    (battleIndex : BattleIndex) (queryTokens : List String) (battleId : String)
    (limit : ℕ) (bid : String) (hmiss : lookupA cache bid = none) :
    (∀ r ∈ (searchInBattleIndex cache battleIndex queryTokens battleId limit).1,
      r.battleId = battleId) ∧
    lookupA (searchInBattleIndex cache battleIndex queryTokens battleId limit).2 bid =
      none := by
  unfold searchInBattleIndex
  simp only
  have hfold : ∀ (l : List ((ℤ × ℕ) × ℕ)) (rs : List SearchResult)
      (c : List (String × BattleData)),
      (∀ r ∈ rs, r.battleId = battleId) → lookupA c bid = none →
      (∀ r ∈ (l.foldl (fun acc entry =>
        match (lruGet acc.2 battleId).1 with
        | some battleData =>
          match lookupA battleData.chunks entry.1.1 with
          | some chunk =>
            match chunk.messages.get? entry.1.2 with
            | some msg =>
              (acc.1 ++ [{ battleId := battleId, chunkIndex := entry.1.1,
                           messageIndex := entry.1.2, message := msg,
                           relevanceScore := (entry.2 : ℚ) / (queryTokens.length : ℚ) }],
               (lruGet acc.2 battleId).2)
            | none => (acc.1, (lruGet acc.2 battleId).2)
          | none => (acc.1, (lruGet acc.2 battleId).2)
        | none => (acc.1, (lruGet acc.2 battleId).2)) (rs, c)).1, r.battleId = battleId) ∧
      lookupA (l.foldl (fun acc entry =>
        match (lruGet acc.2 battleId).1 with
        | some battleData =>
          match lookupA battleData.chunks entry.1.1 with
          | some chunk =>
            match chunk.messages.get? entry.1.2 with
            | some msg =>
              (acc.1 ++ [{ battleId := battleId, chunkIndex := entry.1.1,
                           messageIndex := entry.1.2, message := msg,
                           relevanceScore := (entry.2 : ℚ) / (queryTokens.length : ℚ) }],
               (lruGet acc.2 battleId).2)
            | none => (acc.1, (lruGet acc.2 battleId).2)
          | none => (acc.1, (lruGet acc.2 battleId).2)
        | none => (acc.1, (lruGet acc.2 battleId).2)) (rs, c)).2 bid = none := by
    intro l
    induction l with
    | nil => intro rs c hrs hc; exact ⟨hrs, hc⟩
    | cons e t ih =>
      intro rs c hrs hc
      rw [List.foldl_cons]
      have hc' : lookupA (lruGet c battleId).2 bid = none :=
        lookupA_lruGet_snd_of_none c battleId bid hc
      cases hg : (lruGet c battleId).1 with
      | none =>
        simp only [hg]
        exact ih rs _ hrs hc'
      | some battleData =>
        simp only [hg]
        cases hch : lookupA battleData.chunks e.1.1 with
        | none => exact ih rs _ hrs hc'
        | some chunk =>
          simp only
          cases hmsg : chunk.messages.get? e.1.2 with
          | none => exact ih rs _ hrs hc'
          | some msg =>
            simp only
            refine ih _ _ ?_ hc'
            intro r hr
            rcases List.mem_append.mp hr with hmem | hmem
            · exact hrs r hmem
            · rcases List.mem_singleton.mp hmem with rfl
              rfl
  obtain ⟨h1, h2⟩ := hfold _ [] cache (fun r hr => absurd hr (List.not_mem_nil r)) hmiss
  exact ⟨fun r hr => h1 r (List.take_subset _ _ hr), h2⟩

end BattleLog

namespace BattleLog

/-- The global-search fold of `searchMessages` never produces a result
for a battle missing from the cache, and preserves that miss. -/
theorem searchMessages_global_fold (si : List (String × BattleIndex))
    (queryTokens : List String) (limit : ℕ) (bid : String) :
    ∀ (ids : List String) (acc : List SearchResult × List (String × BattleData)),
      (∀ r ∈ acc.1, r.battleId ≠ bid) → lookupA acc.2 bid = none →
      (∀ r ∈ (ids.foldl
        (fun (acc : List SearchResult × List (String × BattleData)) bid' =>
          match lookupA si bid' with
          | some battleIndex =>
            let r := searchInBattleIndex acc.2 battleIndex queryTokens bid' limit
            (acc.1 ++ r.1, r.2)
          | none => acc) acc).1, r.battleId ≠ bid) := by
  intro ids
  induction ids with
  | nil => intro acc hacc hmiss; exact hacc
  | cons id' t ih =>
    intro acc hacc hmiss
    rw [List.foldl_cons]
    cases hidx : lookupA si id' with
    | none =>
      simp only [hidx]
      exact ih acc hacc hmiss
    | some battleIndex =>
      simp only [hidx]
      by_cases hb : id' = bid
      · subst hb
        obtain ⟨hres, hcache⟩ :=
          searchInBattleIndex_cache_miss acc.2 battleIndex queryTokens id' limit hmiss
        refine ih _ ?_ ?_
        · intro r hr
          rcases List.mem_append.mp hr with hmem | hmem
          · exact hacc r hmem
          · rw [hres] at hmem
            exact absurd hmem (List.not_mem_nil r)
        · rw [hcache]
          exact hmiss
      · obtain ⟨hres, hcache⟩ :=
          searchInBattleIndex_results acc.2 battleIndex queryTokens id' limit bid hmiss
        refine ih _ ?_ hcache
        intro r hr
        rcases List.mem_append.mp hr with hmem | hmem
        · exact hacc r hmem
        · rw [hres r hmem]
          exact hb

/-- C10.  Search results are materialized only from the in-memory LRU
cache: if a battle's `{meta, chunks}` entry is not resident,
`searchMessages` returns no result for that battle — whether it is
named explicitly or reached through the global index, and regardless of
how many positions the inverted search index holds for the query's
tokens. -/
theorem c10_search_requires_cache (s : UnifiedBattleLogSystem) (query : String)
    (battleIdOpt : Option String) (limit : ℕ) (bid : String)
    (hmiss : lookupA s.cache bid = none) :
    (searchMessages s query battleIdOpt limit).1.filter
      (fun r => decide (r.battleId = bid)) = [] := by
  rw [List.filter_eq_nil]
  intro r hr
  simp only [decide_eq_true_eq]
  suffices hne : r.battleId ≠ bid by exact hne
  simp only [searchMessages] at hr
  have hr1 := List.take_subset _ _ hr
  have hr2 := (List.perm_insertionSort _ _).mem_iff.mp hr1
  revert hr2
  cases battleIdOpt with
  | some battleId =>
    cases hidx : lookupA s.searchIndex battleId with
    | none =>
      simp only [hidx]
      intro hr2
      exact absurd hr2 (List.not_mem_nil r)
    | some battleIndex =>
      simp only [hidx]
      by_cases hb : battleId = bid
      · subst hb
        obtain ⟨hres, _⟩ :=
          searchInBattleIndex_cache_miss s.cache battleIndex _ battleId limit hmiss
        rw [hres]
        intro hr2
        exact absurd hr2 (List.not_mem_nil r)
      · obtain ⟨hres, _⟩ :=
          searchInBattleIndex_results s.cache battleIndex _ battleId limit bid hmiss
        intro hr2
        rw [hres r hr2]
        exact hb
  | none =>
    intro hr2
    exact searchMessages_global_fold s.searchIndex _ limit bid s.globalMetaIndex
      ([], s.cache) (fun r hrr => absurd hrr (List.not_mem_nil r)) hmiss r hr2

/-- A state whose inverted index holds a position for the token
`"fireball"` of battle `"b"`, while `"b"` has no cache entry. -/
def c10state : UnifiedBattleLogSystem :=
  { initSystem DEFAULT_CONFIG with
      searchIndex := [("b", [("fireball", [((0 : ℤ), 0)])])],
      globalMetaIndex := ["b"] }

/-- Witness for the hypothesis of `c10_search_requires_cache`. -/
theorem c10_search_requires_cache_witness :
    (searchMessages c10state "fireball" (some "b") 50).1.filter
      (fun r => decide (r.battleId = "b")) = [] :=
  c10_search_requires_cache c10state "fireball" (some "b") 50 "b" (by decide)

end BattleLog

/-! ## Claim C4: flush-failure handling and retry -/

namespace BattleLog

theorem lruGet_of_lookup_some {α : Type} (c : List (String × α)) (k : String) (v : α)
    (h : lookupA c k = some v) :
    lruGet c k = (some v, eraseKeyA c k ++ [(k, v)]) := by
  unfold lruGet
  rw [h]

theorem lruGet_of_lookup_none {α : Type} (c : List (String × α)) (k : String)
    (h : lookupA c k = none) : lruGet c k = (none, c) := by
  unfold lruGet
  rw [h]

theorem lookupA_lruSet_self {α : Type} (maxSize : ℕ) (c : List (String × α))
    (k : String) (v : α) : lookupA (lruSet maxSize c k v) k = some v := by
  unfold lruSet
  exact lookupA_mapSetA_self _ k v

theorem length_mapSetA_le {κ α : Type} [DecidableEq κ]
    (l : List (κ × α)) (k : κ) (v : α) :
    (mapSetA l k v).length ≤ l.length + 1 := by
  induction l with
  | nil => simp
  | cons h t ih =>
    obtain ⟨a, w⟩ := h
    by_cases hk : k = a <;> simp [hk] <;> omega

theorem mem_keys_mapSetA {κ α : Type} [DecidableEq κ]
    (l : List (κ × α)) (k : κ) (v : α) (x : κ)
    (hx : x ∈ (mapSetA l k v).map Prod.fst) :
    x ∈ l.map Prod.fst ∨ x = k := by
  induction l with
  | nil => simpa using hx
  | cons h t ih =>
    obtain ⟨a, w⟩ := h
    by_cases hk : k = a
    · subst hk
      simp only [mapSetA_cons, if_pos rfl, List.map_cons] at hx
      exact Or.inl (by simpa using hx)
    · simp only [hk, mapSetA_cons, if_false, List.map_cons, List.mem_cons] at hx
      rcases hx with hx | hx
      · exact Or.inl (by simp [hx])
      · rcases ih hx with hmem | rfl
        · exact Or.inl (by simp [hmem])
        · exact Or.inr rfl

theorem nodup_keys_mapSetA {κ α : Type} [DecidableEq κ]
    (l : List (κ × α)) (k : κ) (v : α)
    (h : (l.map Prod.fst).Nodup) :
    ((mapSetA l k v).map Prod.fst).Nodup := by
  induction l with
  | nil => simp
  | cons p t ih =>
    obtain ⟨a, w⟩ := p
    simp only [List.map_cons, List.nodup_cons] at h
    by_cases hk : k = a
    · subst hk
      simpa using h
    · simp only [mapSetA_cons, hk, if_false, List.map_cons, List.nodup_cons]
      refine ⟨fun hmem => ?_, ih h.2⟩
      rcases mem_keys_mapSetA t k v a hmem with hmem | rfl
      · exact h.1 hmem
      · exact hk rfl

theorem decodeStoredChunk_encodeChunk (c : MessageChunk) :
    decodeStoredChunk (encodeChunk c) = some c := by
  unfold encodeChunk
  split <;> rfl

/-- `pruneBattleIfNeeded` is a no-op (up to the LRU recency refresh)
when the cached chunk map is within the cap. -/
theorem pruneBattleIfNeeded_of_small (s : UnifiedBattleLogSystem) (battleId : String)
    (battleData : BattleData) (hc : lookupA s.cache battleId = some battleData)
    (hle : battleData.chunks.length ≤ s.config.maxChunksPerBattle) :
    pruneBattleIfNeeded s battleId = { s with cache := (lruGet s.cache battleId).2 } := by
  simp only [pruneBattleIfNeeded, lruGet_of_lookup_some s.cache battleId battleData hc]
  rw [if_neg]
  omega

end BattleLog

namespace BattleLog

theorem buildChunk_messages (sm : SerializeModel) (cfg : BattleLogConfig)
    (battleId : String) (k : ℤ) (queue : List BattleMessage) (now : ℕ) :
    (buildChunk sm cfg battleId k queue now).messages = queue := by
  simp only [buildChunk]
  split <;> rfl

theorem buildChunk_chunkIndex (sm : SerializeModel) (cfg : BattleLogConfig)
    (battleId : String) (k : ℤ) (queue : List BattleMessage) (now : ℕ) :
    (buildChunk sm cfg battleId k queue now).chunkIndex = k := by
  simp only [buildChunk]
  split <;> rfl

theorem pruneBattleIfNeeded_writeQueues (s : UnifiedBattleLogSystem) (battleId : String) :
    (pruneBattleIfNeeded s battleId).writeQueues = s.writeQueues := by
  simp only [pruneBattleIfNeeded]
  split
  · rfl
  · split <;> rfl

theorem flushSuccessState_effects (s : UnifiedBattleLogSystem) (battleId : String)
    (meta : BattleMeta) (newChunk : MessageChunk) (battleData' : BattleData) (queueLen : ℕ)
    (hbd : battleData'.chunks.length ≤ s.config.maxChunksPerBattle) :
    (flushSuccessState s battleId meta newChunk battleData' queueLen).storage =
      saveBattleMeta s.storage meta ∧
    (flushSuccessState s battleId meta newChunk battleData' queueLen).writeQueues =
      mapSetA s.writeQueues battleId [] := by
  simp only [flushSuccessState]
  rw [pruneBattleIfNeeded_of_small _ battleId battleData' (lookupA_lruSet_self _ _ _ _)
    (by simpa using hbd)]
  exact ⟨rfl, rfl⟩

/-- What a `flushBattle` with a failing chunk save does to a state whose
battle data is cache-resident: the error is counted, `flushError` is
emitted, storage, write buffers and everything else but the cached
object stay put; the cached object carries the in-place meta bump and
the not-persisted chunk. -/
theorem flushBattle_failChunk_spec (sm : SerializeModel) (now : ℕ)
    (s : UnifiedBattleLogSystem) (battleId : String) (queue : List BattleMessage)
    (battleData : BattleData)
    (hq : lookupA s.writeQueues battleId = some queue) (hne : queue ≠ [])
    (hc : lookupA s.cache battleId = some battleData) :
    ∃ (battleData' : BattleData) (comps : ℕ),
      flushBattle sm true false now s battleId =
        { s with
            flushTimers := s.flushTimers.erase battleId,
            cache := (mapSetA (eraseKeyA s.cache battleId ++ [(battleId, battleData)])
              battleId battleData'),
            stats := ({ s.stats with compressions := comps, errors := s.stats.errors + 1 }),
            events := (s.events ++ [BattleLogEvent.flushError battleId]) } ∧
      battleData'.meta.lastChunkIndex = battleData.meta.lastChunkIndex + 1 ∧
      battleData'.chunks = mapSetA battleData.chunks (battleData.meta.lastChunkIndex + 1)
        (buildChunk sm s.config battleId (battleData.meta.lastChunkIndex + 1) queue now) := by
  have hqe : queue.isEmpty = false := by
    cases queue with
    | nil => exact absurd rfl hne
    | cons a t => rfl
  have hlru : lruGet s.cache battleId =
      (some battleData, eraseKeyA s.cache battleId ++ [(battleId, battleData)]) :=
    lruGet_of_lookup_some s.cache battleId battleData hc
  simp only [flushBattle, hq, hqe, Bool.false_eq_true, if_false, flushBattleCore, hlru,
             flushFailureState, Option.isSome_some, Option.getD_some, if_true]
  split_ifs with hdc
  · exact ⟨_, _, rfl, rfl, rfl⟩
  · exact ⟨_, _, rfl, rfl, rfl⟩

/-- What a successful `flushBattle` does, for a cache-resident battle
within the pruning cap: the new chunk (the buffered messages, at the
next index) is persisted under its chunk key and the write buffer is
cleared. -/
theorem flushBattle_success_effects (sm : SerializeModel) (now : ℕ)
    (s : UnifiedBattleLogSystem) (battleId : String) (queue : List BattleMessage)
    (battleData : BattleData)
    (hq : lookupA s.writeQueues battleId = some queue) (hne : queue ≠ [])
    (hc : lookupA s.cache battleId = some battleData)
    (hcap : battleData.chunks.length + 1 ≤ s.config.maxChunksPerBattle) :
    (flushBattle sm false false now s battleId).storage.chunks =
      mapSetA s.storage.chunks (battleId, battleData.meta.lastChunkIndex + 1)
        (encodeChunk
          (buildChunk sm s.config battleId (battleData.meta.lastChunkIndex + 1) queue now)) ∧
    lookupA (flushBattle sm false false now s battleId).writeQueues battleId = some [] := by
  have hqe : queue.isEmpty = false := by
    cases queue with
    | nil => exact absurd rfl hne
    | cons a t => rfl
  have hlru : lruGet s.cache battleId =
      (some battleData, eraseKeyA s.cache battleId ++ [(battleId, battleData)]) :=
    lruGet_of_lookup_some s.cache battleId battleData hc
  simp only [flushBattle, hq, hqe, Bool.false_eq_true, if_false, flushBattleCore, hlru,
             Option.isSome_some, Option.getD_some]
  split_ifs with hdc <;>
  · have hbd := le_trans (length_mapSetA_le battleData.chunks
      (battleData.meta.lastChunkIndex + 1)
      (buildChunk sm s.config battleId (battleData.meta.lastChunkIndex + 1) queue now)) hcap
    rw [(flushSuccessState_effects _ battleId _ _ _ _ hbd).1,
        (flushSuccessState_effects _ battleId _ _ _ _ hbd).2]
    refine ⟨?_, ?_⟩
    · rw [saveBattleMeta_chunks]
      simp only [saveBattleChunks, List.foldl_cons, List.foldl_nil]
      rw [buildChunk_chunkIndex]
    · exact lookupA_mapSetA_self _ battleId []

/-- The conclusion of claim C4, for a failing flush at `now` followed by
a retry at `now'`. -/
def C4Concl (sm : SerializeModel) (now now' : ℕ) (s : UnifiedBattleLogSystem)
    (battleId : String) (queue : List BattleMessage) (battleData : BattleData) : Prop :=
  (flushBattle sm true false now s battleId).stats.errors = s.stats.errors + 1 ∧
  (flushBattle sm true false now s battleId).events =
    s.events ++ [BattleLogEvent.flushError battleId] ∧
  lookupA (flushBattle sm true false now s battleId).writeQueues battleId = some queue ∧
  (flushBattle sm true false now s battleId).storage = s.storage ∧
  (∃ (sc : StoredChunk) (c : MessageChunk),
    lookupA (flushBattle sm false false now'
        (flushBattle sm true false now s battleId) battleId).storage.chunks
      (battleId, battleData.meta.lastChunkIndex + 2) = some sc ∧
    decodeStoredChunk sc = some c ∧ c.messages = queue) ∧
  lookupA (flushBattle sm false false now'
      (flushBattle sm true false now s battleId) battleId).writeQueues battleId =
    some [] ∧
  ((s.storage.chunks.map Prod.fst).Nodup →
    ((flushBattle sm false false now'
        (flushBattle sm true false now s battleId) battleId).storage.chunks.map
      Prod.fst).Nodup)

set_option maxHeartbeats 1000000 in
/-- The chunk-save-failure half of C4: the failure is caught, counted
and reported, nothing is persisted, the buffer survives, and the retry
persists the buffered messages at a fresh index. -/
theorem c4_chunk_path (sm : SerializeModel) (now now' : ℕ)
    (s : UnifiedBattleLogSystem) (battleId : String) (queue : List BattleMessage)
    (battleData : BattleData)
    (hq : lookupA s.writeQueues battleId = some queue) (hne : queue ≠ [])
    (hc : lookupA s.cache battleId = some battleData)
    (hcap : battleData.chunks.length + 2 ≤ s.config.maxChunksPerBattle) :
    C4Concl sm now now' s battleId queue battleData := by
  obtain ⟨bd', comps, hEq, hLast, hChunks⟩ :=
    flushBattle_failChunk_spec sm now s battleId queue battleData hq hne hc
  have hq1 : lookupA (flushBattle sm true false now s battleId).writeQueues battleId =
      some queue := by
    rw [hEq]; exact hq
  have hc1 : lookupA (flushBattle sm true false now s battleId).cache battleId =
      some bd' := by
    rw [hEq]; exact lookupA_mapSetA_self _ battleId bd'
  have hcap1 : bd'.chunks.length + 1 ≤
      (flushBattle sm true false now s battleId).config.maxChunksPerBattle := by
    rw [hEq]
    show bd'.chunks.length + 1 ≤ s.config.maxChunksPerBattle
    rw [hChunks]
    have hlen := length_mapSetA_le battleData.chunks (battleData.meta.lastChunkIndex + 1)
      (buildChunk sm s.config battleId (battleData.meta.lastChunkIndex + 1) queue now)
    omega
  obtain ⟨hstore, hwq⟩ :=
    flushBattle_success_effects sm now' _ battleId queue bd' hq1 hne hc1 hcap1
  refine ⟨?_, ?_, hq1, ?_, ?_, hwq, ?_⟩
  · rw [hEq]
  · rw [hEq]
  · rw [hEq]
  · refine ⟨encodeChunk (buildChunk sm (flushBattle sm true false now s battleId).config
        battleId (bd'.meta.lastChunkIndex + 1) queue now'),
      buildChunk sm (flushBattle sm true false now s battleId).config battleId
        (bd'.meta.lastChunkIndex + 1) queue now',
      ?_, decodeStoredChunk_encodeChunk _, buildChunk_messages _ _ _ _ _ _⟩
    rw [hstore, hLast,
        show battleData.meta.lastChunkIndex + 1 + 1 = battleData.meta.lastChunkIndex + 2
          from by ring]
    exact lookupA_mapSetA_self _ _ _
  · intro hnodup
    rw [hstore]
    apply nodup_keys_mapSetA
    rw [hEq]
    exact hnodup

set_option maxHeartbeats 1000000 in
/-- What a `flushBattle` with a failing *meta* save does to a state
whose battle data is cache-resident: the chunk save has already gone
through (the chunk record is persisted at the next index), but the
failure is caught, counted and reported, and the write buffer is left
untouched. -/
theorem flushBattle_failMeta_spec (sm : SerializeModel) (now : ℕ)
    (s : UnifiedBattleLogSystem) (battleId : String) (queue : List BattleMessage)
    (battleData : BattleData)
    (hq : lookupA s.writeQueues battleId = some queue) (hne : queue ≠ [])
    (hc : lookupA s.cache battleId = some battleData) :
    ∃ (battleData' : BattleData) (comps : ℕ),
      flushBattle sm false true now s battleId =
        { s with
            flushTimers := s.flushTimers.erase battleId,
            cache := (mapSetA (eraseKeyA s.cache battleId ++ [(battleId, battleData)])
              battleId battleData'),
            storage := ({ s.storage with chunks := (mapSetA s.storage.chunks
              (battleId, battleData.meta.lastChunkIndex + 1)
              (encodeChunk (buildChunk sm s.config battleId
                (battleData.meta.lastChunkIndex + 1) queue now))) }),
            stats := ({ s.stats with compressions := comps, errors := s.stats.errors + 1 }),
            events := (s.events ++ [BattleLogEvent.flushError battleId]) } ∧
      battleData'.meta.lastChunkIndex = battleData.meta.lastChunkIndex + 1 ∧
      battleData'.chunks = mapSetA battleData.chunks (battleData.meta.lastChunkIndex + 1)
        (buildChunk sm s.config battleId (battleData.meta.lastChunkIndex + 1) queue now) := by
  have hqe : queue.isEmpty = false := by
    cases queue with
    | nil => exact absurd rfl hne
    | cons a t => rfl
  have hlru : lruGet s.cache battleId =
      (some battleData, eraseKeyA s.cache battleId ++ [(battleId, battleData)]) :=
    lruGet_of_lookup_some s.cache battleId battleData hc
  simp only [flushBattle, hq, hqe, Bool.false_eq_true, if_false, flushBattleCore, hlru,
             flushFailureState, Option.isSome_some, Option.getD_some, if_true,
             saveBattleChunks, List.foldl_cons, List.foldl_nil, buildChunk_chunkIndex]
  split_ifs with hdc
  · exact ⟨_, _, rfl, rfl, rfl⟩
  · exact ⟨_, _, rfl, rfl, rfl⟩

/-- The meta-save-failure half of the conclusion of claim C4: the chunk
is already persisted at the next index, the error is caught, counted
and reported, the buffer survives, and the retry at `now'` persists the
buffered messages once more at a strictly fresh index without touching
the chunk record of the failed attempt. -/
def C4ConclMeta (sm : SerializeModel) (now now' : ℕ) (s : UnifiedBattleLogSystem)
    (battleId : String) (queue : List BattleMessage) (battleData : BattleData) : Prop :=
  (flushBattle sm false true now s battleId).stats.errors = s.stats.errors + 1 ∧
  (flushBattle sm false true now s battleId).events =
    s.events ++ [BattleLogEvent.flushError battleId] ∧
  lookupA (flushBattle sm false true now s battleId).writeQueues battleId = some queue ∧
  (∃ (sc : StoredChunk) (c : MessageChunk),
    lookupA (flushBattle sm false true now s battleId).storage.chunks
      (battleId, battleData.meta.lastChunkIndex + 1) = some sc ∧
    decodeStoredChunk sc = some c ∧ c.messages = queue) ∧
  (∃ (sc : StoredChunk) (c : MessageChunk),
    lookupA (flushBattle sm false false now'
        (flushBattle sm false true now s battleId) battleId).storage.chunks
      (battleId, battleData.meta.lastChunkIndex + 2) = some sc ∧
    decodeStoredChunk sc = some c ∧ c.messages = queue) ∧
  lookupA (flushBattle sm false false now'
      (flushBattle sm false true now s battleId) battleId).storage.chunks
    (battleId, battleData.meta.lastChunkIndex + 1) =
  lookupA (flushBattle sm false true now s battleId).storage.chunks
    (battleId, battleData.meta.lastChunkIndex + 1) ∧
  lookupA (flushBattle sm false false now'
      (flushBattle sm false true now s battleId) battleId).writeQueues battleId =
    some [] ∧
  ((s.storage.chunks.map Prod.fst).Nodup →
    ((flushBattle sm false false now'
        (flushBattle sm false true now s battleId) battleId).storage.chunks.map
      Prod.fst).Nodup)

set_option maxHeartbeats 1000000 in
/-- The meta-save-failure half of C4. -/
theorem c4_meta_path (sm : SerializeModel) (now now' : ℕ)
    (s : UnifiedBattleLogSystem) (battleId : String) (queue : List BattleMessage)
    (battleData : BattleData)
    (hq : lookupA s.writeQueues battleId = some queue) (hne : queue ≠ [])
    (hc : lookupA s.cache battleId = some battleData)
    (hcap : battleData.chunks.length + 2 ≤ s.config.maxChunksPerBattle) :
    C4ConclMeta sm now now' s battleId queue battleData := by
  obtain ⟨bd', comps, hEq, hLast, hChunks⟩ :=
    flushBattle_failMeta_spec sm now s battleId queue battleData hq hne hc
  have hq1 : lookupA (flushBattle sm false true now s battleId).writeQueues battleId =
      some queue := by
    rw [hEq]; exact hq
  have hc1 : lookupA (flushBattle sm false true now s battleId).cache battleId =
      some bd' := by
    rw [hEq]; exact lookupA_mapSetA_self _ battleId bd'
  have hcap1 : bd'.chunks.length + 1 ≤
      (flushBattle sm false true now s battleId).config.maxChunksPerBattle := by
    rw [hEq]
    show bd'.chunks.length + 1 ≤ s.config.maxChunksPerBattle
    rw [hChunks]
    have hlen := length_mapSetA_le battleData.chunks (battleData.meta.lastChunkIndex + 1)
      (buildChunk sm s.config battleId (battleData.meta.lastChunkIndex + 1) queue now)
    omega
  obtain ⟨hstore, hwq⟩ :=
    flushBattle_success_effects sm now' _ battleId queue bd' hq1 hne hc1 hcap1
  refine ⟨?_, ?_, hq1, ?_, ?_, ?_, hwq, ?_⟩
  · rw [hEq]
  · rw [hEq]
  · refine ⟨encodeChunk (buildChunk sm s.config battleId
        (battleData.meta.lastChunkIndex + 1) queue now),
      buildChunk sm s.config battleId (battleData.meta.lastChunkIndex + 1) queue now,
      ?_, decodeStoredChunk_encodeChunk _, buildChunk_messages _ _ _ _ _ _⟩
    rw [hEq]
    exact lookupA_mapSetA_self _ _ _
  · refine ⟨encodeChunk (buildChunk sm (flushBattle sm false true now s battleId).config
        battleId (bd'.meta.lastChunkIndex + 1) queue now'),
      buildChunk sm (flushBattle sm false true now s battleId).config battleId
        (bd'.meta.lastChunkIndex + 1) queue now',
      ?_, decodeStoredChunk_encodeChunk _, buildChunk_messages _ _ _ _ _ _⟩
    rw [hstore, hLast,
        show battleData.meta.lastChunkIndex + 1 + 1 = battleData.meta.lastChunkIndex + 2
          from by ring]
    exact lookupA_mapSetA_self _ _ _
  · rw [hstore, hLast]
    refine lookupA_mapSetA_ne _ _ _ _ ?_
    intro h
    have h2 := congrArg Prod.snd h
    simp only at h2
    omega
  · intro hnodup
    rw [hstore]
    apply nodup_keys_mapSetA
    rw [hEq]
    exact nodup_keys_mapSetA _ _ _ hnodup

set_option maxHeartbeats 1000000 in
/-- C4.  If persisting the chunk or the meta fails during
`flushBattle`, the failure is caught (the function is total — nothing
reaches the caller), counted in `stats.errors`, and reported through a
`flushError` event; the write buffer still holds the same queue, so a
retry re-attempts exactly those messages; the retry persists them as
one chunk at a strictly fresh index (`lastChunkIndex + 2` — the failed
attempt burned index `+1` in the in-place-mutated cached meta), never
overwriting an already-persisted chunk record, and distinctness of the
stored chunk keys is preserved, so no two persisted chunks for the log
ever share a chunk index. -/
theorem c4_flush_failure_retry (sm : SerializeModel) (now now' : ℕ)
    (s : UnifiedBattleLogSystem) (battleId : String) (queue : List BattleMessage)
    (battleData : BattleData)
    (hq : lookupA s.writeQueues battleId = some queue) (hne : queue ≠ [])
    (hc : lookupA s.cache battleId = some battleData)
    (hcap : battleData.chunks.length + 2 ≤ s.config.maxChunksPerBattle) :
    C4Concl sm now now' s battleId queue battleData ∧
    C4ConclMeta sm now now' s battleId queue battleData :=
  ⟨c4_chunk_path sm now now' s battleId queue battleData hq hne hc hcap,
   c4_meta_path sm now now' s battleId queue battleData hq hne hc hcap⟩

/-- A system with one flushed chunk on log `"b"` and one freshly
enqueued message still in the write buffer. -/
def c4s : UnifiedBattleLogSystem :=
  (enqueueMessage szZero "1" 1 (enqFlush (initSystem DEFAULT_CONFIG) "b" 0) "b"
    (payloadFor "b" "Rimuru" "zap")).2

def c4queue : List BattleMessage := [mkFullMessage "1" 1 (payloadFor "b" "Rimuru" "zap")]

def c4data : BattleData := (lookupA c4s.cache "b").getD (defaultBattleData "b" 0)

set_option maxRecDepth 100000 in
/-- Witness for the hypotheses of `c4_flush_failure_retry`. -/
theorem c4_flush_failure_retry_witness :
    C4Concl szZero 2 3 c4s "b" c4queue c4data ∧
    C4ConclMeta szZero 2 3 c4s "b" c4queue c4data :=
  c4_flush_failure_retry szZero 2 3 c4s "b" c4queue c4data (by decide) (by decide)
    (by decide) (by decide)

end BattleLog

/-! ## Claim C3: enqueue→flush→read round trip -/

namespace BattleLog

theorem mapSetA_of_lookup_none {κ α : Type} [DecidableEq κ]
    (l : List (κ × α)) (k : κ) (v : α) (h : lookupA l k = none) :
    mapSetA l k v = l ++ [(k, v)] := by
  induction l with
  | nil => rfl
  | cons p t ih =>
    obtain ⟨a, w⟩ := p
    by_cases hk : k = a
    · subst hk
      simp [lookupA_cons] at h
    · simp only [lookupA_cons, if_neg hk] at h
      simp [mapSetA_cons, hk, ih h]

theorem lruSet_nil {α : Type} (maxSize : ℕ) (k : String) (v : α) :
    lruSet maxSize ([] : List (String × α)) k v = [(k, v)] := by
  unfold lruSet
  split <;> rfl

theorem loadBattleFromStorage_of_fresh (s : UnifiedBattleLogSystem) (battleId : String)
    (mS : BattleMeta) (hmS : lookupA s.storage.metas battleId = some mS)
    (hL : mS.lastChunkIndex = -1) :
    loadBattleFromStorage s battleId =
      (some { meta := mS, chunks := [] },
       { s with searchIndex :=
          rebuildSearchIndexFromChunks s.config s.searchIndex battleId [] }) := by
  simp only [loadBattleFromStorage, hmS, hL]
  norm_num
  rfl

theorem flushSuccessState_proj (s : UnifiedBattleLogSystem) (battleId : String)
    (meta : BattleMeta) (newChunk : MessageChunk) (battleData' : BattleData) (queueLen : ℕ)
    (hbd : battleData'.chunks.length ≤ s.config.maxChunksPerBattle) :
    (flushSuccessState s battleId meta newChunk battleData' queueLen).config = s.config ∧
    (flushSuccessState s battleId meta newChunk battleData' queueLen).storage.metas =
      mapSetA s.storage.metas meta.battleId meta ∧
    (flushSuccessState s battleId meta newChunk battleData' queueLen).cache =
      eraseKeyA (lruSet s.config.cacheSize s.cache battleId battleData') battleId ++
        [(battleId, battleData')] := by
  simp only [flushSuccessState]
  rw [pruneBattleIfNeeded_of_small _ battleId battleData' (lookupA_lruSet_self _ _ _ _)
    (by simpa using hbd)]
  refine ⟨rfl, ?_, ?_⟩
  · simp [saveBattleMeta]
  · show (lruGet (lruSet s.config.cacheSize s.cache battleId battleData') battleId).2 = _
    rw [lruGet_of_lookup_some _ _ _ (lookupA_lruSet_self _ _ _ _)]

/-- Effect of a successful `flushBattle` on a battle that is in neither
the cache (empty) nor storage beyond a fresh meta (`lastChunkIndex =
-1`): the whole buffered queue becomes chunk `0` and the battle data is
cached. -/
theorem flushBattle_fresh_effects (sm : SerializeModel) (now : ℕ)
    (s : UnifiedBattleLogSystem) (battleId : String) (queue : List BattleMessage)
    (mS : BattleMeta)
    (hq : lookupA s.writeQueues battleId = some queue) (hne : queue ≠ [])
    (hcache : s.cache = [])
    (hmS : lookupA s.storage.metas battleId = some mS)
    (hbid : mS.battleId = battleId)
    (hL : mS.lastChunkIndex = -1)
    (hcap1 : 1 ≤ s.config.maxChunksPerBattle) :
    ∃ (meta' : BattleMeta) (ck : MessageChunk),
      (flushBattle sm false false now s battleId).config = s.config ∧
      lookupA (flushBattle sm false false now s battleId).writeQueues battleId =
        some [] ∧
      (∃ mS' : BattleMeta,
        lookupA (flushBattle sm false false now s battleId).storage.metas battleId =
          some mS') ∧
      (flushBattle sm false false now s battleId).cache =
        [(battleId, { meta := meta', chunks := [((0 : ℤ), ck)] })] ∧
      meta'.lastChunkIndex = 0 ∧ meta'.battleId = battleId ∧ ck.messages = queue := by
  have hqe : queue.isEmpty = false := by
    cases queue with
    | nil => exact absurd rfl hne
    | cons a t => rfl
  have hlru : lruGet s.cache battleId = (none, s.cache) :=
    lruGet_of_lookup_none s.cache battleId (by rw [hcache]; rfl)
  have hload := loadBattleFromStorage_of_fresh
    ({ s with flushTimers := s.flushTimers.erase battleId }) battleId mS hmS hL
  simp only [flushBattle, hq, hqe, Bool.false_eq_true, if_false, flushBattleCore, hlru,
             Option.isSome_some, Option.isSome_none, Option.getD_some]
  rw [hload]
  simp only [Option.getD_some, hL]
  simp only [show ((-1 : ℤ) + 1) = 0 from by norm_num]
  have hng : ¬ (1 > s.config.maxChunksPerBattle) := by omega
  split_ifs with hcomp <;>
  · simp only [flushSuccessState, saveBattleMeta, saveBattleChunks, lruSet_nil,
               pruneBattleIfNeeded, mapSetA_nil, List.foldl_cons, List.foldl_nil,
               buildChunk_chunkIndex, lruGet, lookupA_cons, eraseKeyA_cons,
               eq_self_iff_true, if_true, List.length_cons, List.length_nil, hng,
               if_false, List.nil_append, hbid, hcache]
    exact ⟨_, _, trivial, lookupA_mapSetA_self _ _ _, ⟨_, lookupA_mapSetA_self _ _ _⟩,
      rfl, rfl, rfl, buildChunk_messages _ _ _ _ _ _⟩

/-- Effect of a successful `flushBattle` on a battle whose data is the
sole cache entry, within the pruning cap: the buffered queue becomes the
chunk at the next index in the cached chunk map. -/
theorem flushBattle_hit_effects (sm : SerializeModel) (now : ℕ)
    (s : UnifiedBattleLogSystem) (battleId : String) (queue : List BattleMessage)
    (battleData : BattleData)
    (hq : lookupA s.writeQueues battleId = some queue) (hne : queue ≠ [])
    (hsingle : s.cache = [(battleId, battleData)])
    (hbid : battleData.meta.battleId = battleId)
    (hnosz : ¬ (s.config.cacheSize ≤ 1))
    (hcap : battleData.chunks.length + 1 ≤ s.config.maxChunksPerBattle) :
    ∃ (meta' : BattleMeta) (chks : List (ℤ × MessageChunk)),
      (flushBattle sm false false now s battleId).config = s.config ∧
      lookupA (flushBattle sm false false now s battleId).writeQueues battleId =
        some [] ∧
      (∃ mS' : BattleMeta,
        lookupA (flushBattle sm false false now s battleId).storage.metas battleId =
          some mS') ∧
      (flushBattle sm false false now s battleId).cache =
        [(battleId, { meta := meta', chunks := chks })] ∧
      chks = mapSetA battleData.chunks (battleData.meta.lastChunkIndex + 1)
        (buildChunk sm s.config battleId (battleData.meta.lastChunkIndex + 1) queue now) ∧
      meta'.lastChunkIndex = battleData.meta.lastChunkIndex + 1 ∧
      meta'.battleId = battleId := by
  have hqe : queue.isEmpty = false := by
    cases queue with
    | nil => exact absurd rfl hne
    | cons a t => rfl
  have hlru : lruGet s.cache battleId =
      (some battleData, eraseKeyA s.cache battleId ++ [(battleId, battleData)]) :=
    lruGet_of_lookup_some s.cache battleId battleData (by rw [hsingle]; simp)
  have hpr : ¬ ((mapSetA battleData.chunks (battleData.meta.lastChunkIndex + 1)
      (buildChunk sm s.config battleId (battleData.meta.lastChunkIndex + 1)
        queue now)).length > s.config.maxChunksPerBattle) := by
    have := length_mapSetA_le battleData.chunks (battleData.meta.lastChunkIndex + 1)
      (buildChunk sm s.config battleId (battleData.meta.lastChunkIndex + 1) queue now)
    omega
  simp only [flushBattle, hq, hqe, Bool.false_eq_true, if_false, flushBattleCore, hlru,
             Option.isSome_some, Option.getD_some]
  split_ifs with hcomp <;>
  · simp only [flushSuccessState, saveBattleMeta, saveBattleChunks, pruneBattleIfNeeded,
               lruSet, lruGet, hsingle, eraseKeyA_cons, eq_self_iff_true, if_true,
               List.nil_append, List.length_cons, List.length_nil, hnosz, if_false,
               mapSetA_cons, lookupA_cons, List.foldl_cons, List.foldl_nil,
               buildChunk_chunkIndex, hpr, hbid]
    exact ⟨_, _, trivial, lookupA_mapSetA_self _ _ _, ⟨_, lookupA_mapSetA_self _ _ _⟩,
      rfl, rfl, rfl, rfl⟩

/-- The shape of the cache while messages flow into log `bid`: exactly
one entry, whose chunk map holds chunks `0 … c-1`, chunk `j` carrying
the `j`-th ten-message window of the enqueued messages `ms`. -/
def CacheShape (bid : String) (ms : List BattleMessage) (c : ℕ)
    (s : UnifiedBattleLogSystem) : Prop :=
  ∃ (mc : BattleMeta) (cf : ℕ → MessageChunk),
    s.cache =
      [(bid, { meta := mc, chunks := (List.range c).map (fun j => (Int.ofNat j, cf j)) })] ∧
    mc.battleId = bid ∧ mc.lastChunkIndex = (c : ℤ) - 1 ∧
    ∀ j, j < c → (cf j).messages = (ms.drop (10 * j)).take 10

/-- One flush under the invariant shape: the buffered window becomes
chunk `c` and the buffer empties. -/
theorem flushStep (bid : String) (now : ℕ) (ms : List BattleMessage) (c : ℕ)
    (s : UnifiedBattleLogSystem)
    (hcfg : s.config = DEFAULT_CONFIG)
    (hq : lookupA s.writeQueues bid = some (ms.drop (10 * c)))
    (hqn : ms.drop (10 * c) ≠ [])
    (hmeta : ∃ mS, lookupA s.storage.metas bid = some mS ∧
      (c = 0 → mS.battleId = bid ∧ mS.lastChunkIndex = -1))
    (hcache0 : c = 0 → s.cache = [])
    (hcache1 : 1 ≤ c → CacheShape bid ms c s)
    (hlen : ms.length ≤ 10 * c + 10)
    (hcap : c + 1 ≤ 10) :
    (flushBattle szZero false false now s bid).config = DEFAULT_CONFIG ∧
    lookupA (flushBattle szZero false false now s bid).writeQueues bid = some [] ∧
    (∃ mS, lookupA (flushBattle szZero false false now s bid).storage.metas bid =
      some mS) ∧
    CacheShape bid ms (c + 1) (flushBattle szZero false false now s bid) := by
  obtain ⟨mS, hmS, hmS0⟩ := hmeta
  by_cases hc0 : c = 0
  · subst hc0
    obtain ⟨hbid0, hL⟩ := hmS0 rfl
    obtain ⟨meta', ck, h1, h2, h3, h4, h5, h6, h7⟩ :=
      flushBattle_fresh_effects szZero now s bid (ms.drop (10 * 0)) mS hq hqn
        (hcache0 rfl) hmS hbid0 hL (by rw [hcfg]; decide)
    refine ⟨by rw [h1, hcfg], h2, h3, ?_⟩
    refine ⟨meta', fun _ => ck, ?_, h6, by rw [h5]; norm_num, ?_⟩
    · rw [h4]
      simp [List.range_succ]
    · intro j hj
      have hj0 : j = 0 := by omega
      subst hj0
      rw [h7, List.take_of_length_le]
      have := List.length_drop (10 * 0) ms
      omega
  · have hc1 : 1 ≤ c := by omega
    obtain ⟨mc, cf, hsingle, hmcb, hlci, hw⟩ := hcache1 hc1
    have h10 : DEFAULT_CONFIG.maxChunksPerBattle = 10 := rfl
    obtain ⟨meta', chks, h1, h2, h3, h4, h5, h6, h7⟩ :=
      flushBattle_hit_effects szZero now s bid (ms.drop (10 * c))
        ({ meta := mc, chunks := (List.range c).map (fun j => (Int.ofNat j, cf j)) })
        hq hqn hsingle hmcb (by rw [hcfg]; decide)
        (by simp only [List.length_map, List.length_range]; rw [hcfg, h10]; omega)
    have hkey : mc.lastChunkIndex + 1 = ((c : ℕ) : ℤ) := by rw [hlci]; ring
    rw [hkey] at h5 h6
    have hnone : lookupA ((List.range c).map (fun j => (Int.ofNat j, cf j)))
        ((c : ℕ) : ℤ) = none :=
      lookupA_map_range_eq_none cf c _ (fun j hj he => by
        have : j = c := Int.ofNat.inj he
        omega)
    rw [mapSetA_of_lookup_none _ _ _ hnone] at h5
    refine ⟨by rw [h1, hcfg], h2, h3, ?_⟩
    refine ⟨meta',
      (fun j => if j = c then buildChunk szZero s.config bid ((c : ℕ) : ℤ)
        (ms.drop (10 * c)) now else cf j), ?_, h7, by rw [h6]; push_cast; ring, ?_⟩
    · have hchunks : (List.range (c + 1)).map
          (fun j => (Int.ofNat j, if j = c then buildChunk szZero s.config bid
            ((c : ℕ) : ℤ) (ms.drop (10 * c)) now else cf j)) =
          (List.range c).map (fun j => (Int.ofNat j, cf j)) ++
            [(((c : ℕ) : ℤ), buildChunk szZero s.config bid ((c : ℕ) : ℤ)
              (ms.drop (10 * c)) now)] := by
        rw [List.range_succ, List.map_append]
        congr 1
        · refine List.map_congr_left (fun j hj => ?_)
          have hjc : j ≠ c := by
            have := List.mem_range.mp hj
            omega
          simp [hjc]
        · simp
      rw [h4, h5, hchunks]
    · intro j hj
      by_cases hjc : j = c
      · subst hjc
        simp only [eq_self_iff_true, if_true, buildChunk_messages]
        rw [List.take_of_length_le]
        have := List.length_drop (10 * j) ms
        omega
      · have hjlt : j < c := by omega
        simp only [if_neg hjc]
        exact hw j hjlt

theorem drop_append_of_le {α : Type} (l l' : List α) (n : ℕ) (h : n ≤ l.length) :
    (l ++ l').drop n = l.drop n ++ l' := by
  rw [List.drop_append_eq_append_drop, Nat.sub_eq_zero_of_le h, List.drop_zero]

theorem take_append_of_le {α : Type} (l l' : List α) (n : ℕ) (h : n ≤ l.length) :
    (l ++ l').take n = l.take n := by
  rw [List.take_append_eq_append_take, Nat.sub_eq_zero_of_le h, List.take_zero,
      List.append_nil]

/-- Appending a message does not change the completed ten-message
windows. -/
theorem window_extend (ms : List BattleMessage) (m : BattleMessage) (j : ℕ)
    (hj : 10 * j + 10 ≤ ms.length) :
    ((ms ++ [m]).drop (10 * j)).take 10 = (ms.drop (10 * j)).take 10 := by
  rw [drop_append_of_le ms [m] (10 * j) (by omega)]
  rw [take_append_of_le _ [m] 10 (by rw [List.length_drop]; omega)]

/-- The invariant carried while enqueueing messages `ms` on the single
log `bid` from a fresh system: completed ten-message windows are
flushed into cached chunks, the tail sits in the write buffer. -/
def InvC (bid : String) (ms : List BattleMessage) (s : UnifiedBattleLogSystem) : Prop :=
  s.config = DEFAULT_CONFIG ∧
  lookupA s.writeQueues bid = some (ms.drop (10 * (ms.length / 10))) ∧
  (∃ mS, lookupA s.storage.metas bid = some mS ∧
    (ms.length / 10 = 0 → mS.battleId = bid ∧ mS.lastChunkIndex = -1)) ∧
  (ms.length / 10 = 0 → s.cache = []) ∧
  (1 ≤ ms.length / 10 → CacheShape bid ms (ms.length / 10) s)

theorem enq_base (bid : String) (p : MessagePayload) (msgId : String) (now : ℕ) :
    InvC bid [mkFullMessage msgId now p]
      (enqueueMessage szZero msgId now (initSystem DEFAULT_CONFIG) bid p).2 := by
  simp [enqueueMessage, initSystem, ensureBattleMetaExists, updateGlobalMetaIndex,
        updateUnreadCountInMemory, scheduleFlush, InvC, DEFAULT_CONFIG]

theorem enq_step (bid : String) (p : MessagePayload) (msgId : String) (now : ℕ)
    (ms : List BattleMessage) (s : UnifiedBattleLogSystem)
    (hlen : ms.length + 1 ≤ 100) (hInv : InvC bid ms s) :
    InvC bid (ms ++ [mkFullMessage msgId now p])
      (enqueueMessage szZero msgId now s bid p).2 := by
  obtain ⟨hcfg, hq, ⟨mS, hmS, hmS0⟩, hc0, hc1⟩ := hInv
  have hft : DEFAULT_CONFIG.flushThreshold = 10 := rfl
  simp only [enqueueMessage, ensureBattleMetaExists, hmS, updateUnreadCountInMemory,
             hq, Option.getD_some, lookupA_mapSetA_self, hcfg, hft]
  have hdiv : 10 * (ms.length / 10) ≤ ms.length := by omega
  split_ifs with hflush
  · have hk9 : ms.length % 10 = 9 := by
      simp only [List.length_append, List.length_drop, List.length_cons,
                 List.length_nil] at hflush
      omega
    obtain ⟨f1, f2, f3, f4⟩ :=
      flushStep bid now (ms ++ [mkFullMessage msgId now p]) (ms.length / 10)
        { config := DEFAULT_CONFIG,
          storage :=
            { metas := (mapSetA s.storage.metas bid
                ({ mS with unreadCount := 0 ⊔ (mS.unreadCount + 1), lastUpdated := now })),
              chunks := s.storage.chunks, index := s.storage.index },
          cache := s.cache,
          writeQueues := (mapSetA s.writeQueues bid
            (List.drop (10 * (ms.length / 10)) ms ++ [mkFullMessage msgId now p])),
          flushTimers := s.flushTimers, messageQueue := s.messageQueue,
          searchIndex := s.searchIndex, globalMetaIndex := s.globalMetaIndex,
          stats := s.stats, events := s.events }
        rfl
        (by rw [drop_append_of_le _ _ _ hdiv]
            exact lookupA_mapSetA_self _ _ _)
        (by rw [drop_append_of_le _ _ _ hdiv]; simp)
        ⟨{ mS with unreadCount := 0 ⊔ (mS.unreadCount + 1), lastUpdated := now },
          lookupA_mapSetA_self _ _ _,
          fun h0 => ⟨(hmS0 h0).1, (hmS0 h0).2⟩⟩
        (fun h0 => hc0 h0)
        (fun hge => by
          obtain ⟨mc, cf, hx1, hx2, hx3, hx4⟩ := hc1 hge
          refine ⟨mc, cf, hx1, hx2, hx3, fun j hj => ?_⟩
          rw [window_extend ms _ j (by omega)]
          exact hx4 j hj)
        (by simp only [List.length_append, List.length_cons, List.length_nil]; omega)
        (by omega)
    refine ⟨f1, ?_, ?_, ?_, ?_⟩
    · have hdrop : (ms ++ [mkFullMessage msgId now p]).drop
          (10 * ((ms ++ [mkFullMessage msgId now p]).length / 10)) = [] := by
        apply List.drop_eq_nil_of_le
        simp only [List.length_append, List.length_cons, List.length_nil]
        omega
      rw [hdrop]
      exact f2
    · obtain ⟨mS2, hmS2⟩ := f3
      exact ⟨mS2, hmS2, fun h0 => absurd h0 (by
        simp only [List.length_append, List.length_cons, List.length_nil]
        omega)⟩
    · intro h0
      exact absurd h0 (by
        simp only [List.length_append, List.length_cons, List.length_nil]
        omega)
    · intro _
      have hc' : (ms ++ [mkFullMessage msgId now p]).length / 10 = ms.length / 10 + 1 := by
        simp only [List.length_append, List.length_cons, List.length_nil]
        omega
      rw [hc']
      exact f4
  · have hk8 : ms.length % 10 ≤ 8 := by
      simp only [List.length_append, List.length_drop, List.length_cons,
                 List.length_nil] at hflush
      omega
    have hc' : (ms ++ [mkFullMessage msgId now p]).length / 10 = ms.length / 10 := by
      simp only [List.length_append, List.length_cons, List.length_nil]
      omega
    refine ⟨rfl, ?_, ?_, ?_, ?_⟩
    · rw [hc', drop_append_of_le _ _ _ hdiv]
      exact lookupA_mapSetA_self _ _ _
    · exact ⟨{ mS with unreadCount := 0 ⊔ (mS.unreadCount + 1), lastUpdated := now },
        lookupA_mapSetA_self _ _ _,
        fun h0 => ⟨(hmS0 (by rwa [hc'] at h0)).1, (hmS0 (by rwa [hc'] at h0)).2⟩⟩
    · intro h0
      exact hc0 (by rwa [hc'] at h0)
    · intro hge
      rw [hc']
      obtain ⟨mc, cf, hx1, hx2, hx3, hx4⟩ := hc1 (by rwa [hc'] at hge)
      refine ⟨mc, cf, hx1, hx2, hx3, fun j hj => ?_⟩
      rw [window_extend ms _ j (by omega)]
      exact hx4 j hj

/-- The messages produced by enqueueing a payload list with ids and
times `j, j+1, …` (`enqueueMessage` generates ids from a counter and
stamps `Date.now()`; the model takes them from the call site). -/
def msgsFrom : ℕ → List MessagePayload → List BattleMessage
  | _, [] => []
  | j, p :: ps => mkFullMessage (toString j) j p :: msgsFrom (j + 1) ps

/-- Enqueue a payload list on `bid`, ids and times counting up from
`j`. -/
def enqFrom (bid : String) : ℕ → UnifiedBattleLogSystem → List MessagePayload →
    UnifiedBattleLogSystem
  | _, s, [] => s
  | j, s, p :: ps => enqFrom bid (j + 1) (enqueueMessage szZero (toString j) j s bid p).2 ps

/-- The claim's scenario: enqueue every payload on one log of a fresh
system (threshold flushes firing inside `enqueueMessage`), then run the
final timer flush. -/
def c3Run (bid : String) (ps : List MessagePayload) : UnifiedBattleLogSystem :=
  flushBattle szZero false false ps.length
    (enqFrom bid 0 (initSystem DEFAULT_CONFIG) ps) bid

theorem msgsFrom_length (j : ℕ) (ps : List MessagePayload) :
    (msgsFrom j ps).length = ps.length := by
  induction ps generalizing j with
  | nil => rfl
  | cons p t ih => simp [msgsFrom, ih]

theorem enqFrom_inv (bid : String) (ps : List MessagePayload) :
    ∀ (j : ℕ) (s : UnifiedBattleLogSystem) (ms : List BattleMessage),
      ms.length + ps.length ≤ 100 → InvC bid ms s →
      InvC bid (ms ++ msgsFrom j ps) (enqFrom bid j s ps) := by
  induction ps with
  | nil =>
    intro j s ms _ h
    simpa [enqFrom, msgsFrom] using h
  | cons p t ih =>
    intro j s ms hlen hinv
    have h1 := enq_step bid p (toString j) j ms s (by simp at hlen; omega) hinv
    have h2 := ih (j + 1) _ (ms ++ [mkFullMessage (toString j) j p])
      (by simp at hlen ⊢; omega) h1
    simpa [enqFrom, msgsFrom] using h2

theorem flushBattle_of_empty (sm : SerializeModel) (a b : Bool) (now : ℕ)
    (s : UnifiedBattleLogSystem) (bid : String)
    (hq : lookupA s.writeQueues bid = some []) :
    flushBattle sm a b now s bid = s := by
  simp [flushBattle, hq]

theorem foldl_push_of_le {α : Type} (limit : ℕ) :
    ∀ (l acc : List α), acc.length + l.length ≤ limit →
      l.foldl (fun a m => if a.length < limit then a ++ [m] else a) acc = acc ++ l := by
  intro l
  induction l with
  | nil => intro acc _; simp
  | cons m t ih =>
    intro acc h
    simp only [List.foldl_cons]
    rw [if_pos (by simp at h; omega)]
    rw [ih (acc ++ [m]) (by simp at h ⊢; omega)]
    simp

theorem pushNewestFirst_of_le (limit : ℕ) (acc ms : List BattleMessage)
    (h : acc.length + ms.length ≤ limit) :
    pushNewestFirst limit acc ms = acc ++ ms.reverse := by
  unfold pushNewestFirst
  rw [foldl_push_of_le limit ms.reverse acc (by simpa using h)]

/-- Walking the chunk map whose chunk `j` is the `j`-th window of `ms`
accumulates all of `ms`, newest first. -/
theorem chunkWalk_windows (ms : List BattleMessage) (C : ℕ) (cf : ℕ → MessageChunk)
    (limit : ℕ)
    (hw : ∀ j, j < C → (cf j).messages = (ms.drop (10 * j)).take 10)
    (hlim : ms.length ≤ limit) (hpos : ms ≠ []) :
    ∀ t, t ≤ C →
      chunkWalk ((List.range C).map (fun j => (Int.ofNat j, cf j))) limit t
        ((ms.drop (10 * t)).reverse) = ms.reverse := by
  intro t
  induction t with
  | zero => intro _; simp [chunkWalk]
  | succ k ih =>
    intro hk
    have hlt : ((ms.drop (10 * (k + 1))).reverse).length < limit := by
      have h0 : 0 < ms.length := List.length_pos.mpr hpos
      simp only [List.length_reverse, List.length_drop]
      omega
    simp only [chunkWalk, if_pos hlt, lookupA_map_range_lt cf C k (by omega)]
    rw [hw k (by omega)]
    rw [pushNewestFirst_of_le limit _ _ (by
      simp only [List.length_reverse, List.length_drop, List.length_take]
      omega)]
    have hjoin : (ms.drop (10 * (k + 1))).reverse ++
        ((ms.drop (10 * k)).take 10).reverse = (ms.drop (10 * k)).reverse := by
      rw [← List.reverse_append]
      congr 1
      rw [show 10 * (k + 1) = 10 * k + 10 from by ring, ← List.drop_drop]
      exact List.take_append_drop 10 (ms.drop (10 * k))
    rw [hjoin]
    exact ih (by omega)

/-- Reading a cached battle whose chunks cover `ms` returns `ms` in
chronological order. -/
theorem getRecent_of_shape (bid : String) (ms : List BattleMessage) (C : ℕ)
    (s : UnifiedBattleLogSystem) (limit : ℕ)
    (hshape : CacheShape bid ms C s)
    (hcover : ms.length ≤ 10 * C)
    (hpos : ms ≠ [])
    (hlim : ms.length ≤ limit) :
    (getRecentMessages s bid limit).1 = ms := by
  obtain ⟨mc, cf, hcache, hbid, hlci, hw⟩ := hshape
  have hlook : lookupA s.cache bid =
      some { meta := mc, chunks := (List.range C).map (fun j => (Int.ofNat j, cf j)) } := by
    rw [hcache]; simp
  simp only [getRecentMessages, lruGet_of_lookup_some _ _ _ hlook,
             getMessagesFromBattleData]
  rw [hlci]
  have hC : ((C : ℤ) - 1 + 1).toNat = C := by omega
  rw [hC]
  have hstart : (ms.drop (10 * C)).reverse = ([] : List BattleMessage) := by
    rw [List.drop_eq_nil_of_le (by omega)]
    rfl
  have hwalk := chunkWalk_windows ms C cf limit hw hlim hpos C le_rfl
  rw [hstart] at hwalk
  rw [hwalk, List.reverse_reverse]

/-- C3 (amended).  For every payload sequence of at most 100 messages
enqueued on one log of a fresh system — `maxChunksPerBattle * flushThreshold`,
beyond which per-battle pruning drops the oldest chunks — after the
threshold-driven flushes and the final flush complete, `getRecentMessages`
with a limit at least the number of messages returns exactly the
enqueued messages in chronological order. -/
theorem c3_roundtrip_amended (bid : String) (ps : List MessagePayload) (limit : ℕ)
    (hlen : ps.length ≤ 100) (hlim : ps.length ≤ limit) :
    (getRecentMessages (c3Run bid ps) bid limit).1 = msgsFrom 0 ps := by
  cases ps with
  | nil => rfl
  | cons p t =>
    have hbase := enq_base bid p (toString 0) 0
    have hinv := enqFrom_inv bid t 1
      (enqueueMessage szZero (toString 0) 0 (initSystem DEFAULT_CONFIG) bid p).2
      [mkFullMessage (toString 0) 0 p]
      (by simp at hlen ⊢; omega) hbase
    have hms : ([mkFullMessage (toString 0) 0 p] ++ msgsFrom 1 t) = msgsFrom 0 (p :: t) := by
      simp [msgsFrom]
    rw [hms] at hinv
    have hrun : enqFrom bid 0 (initSystem DEFAULT_CONFIG) (p :: t) =
        enqFrom bid 1
          (enqueueMessage szZero (toString 0) 0 (initSystem DEFAULT_CONFIG) bid p).2 t := rfl
    rw [← hrun] at hinv
    obtain ⟨hcfg, hq, hmeta, hc0, hc1⟩ := hinv
    have hlms : (msgsFrom 0 (p :: t)).length = (p :: t).length := msgsFrom_length 0 (p :: t)
    have hpos : msgsFrom 0 (p :: t) ≠ [] := by simp [msgsFrom]
    have hlt : (p :: t).length ≤ 100 := hlen
    by_cases hmod : (p :: t).length % 10 = 0
    · have hqe : (msgsFrom 0 (p :: t)).drop
          (10 * ((msgsFrom 0 (p :: t)).length / 10)) = [] := by
        apply List.drop_eq_nil_of_le
        omega
      rw [hqe] at hq
      have hfl : c3Run bid (p :: t) = enqFrom bid 0 (initSystem DEFAULT_CONFIG) (p :: t) :=
        flushBattle_of_empty _ _ _ _ _ _ hq
      rw [hfl]
      have hC1 : 1 ≤ (msgsFrom 0 (p :: t)).length / 10 := by
        have : (p :: t).length ≠ 0 := by simp
        omega
      exact getRecent_of_shape bid _ _ _ limit (hc1 hC1) (by omega) hpos (by omega)
    · have hqn : (msgsFrom 0 (p :: t)).drop
          (10 * ((msgsFrom 0 (p :: t)).length / 10)) ≠ [] := by
        intro hq0
        have hlq := congrArg List.length hq0
        simp only [List.length_drop, List.length_nil] at hlq
        omega
      obtain ⟨f1, f2, f3, f4⟩ := flushStep bid ((p :: t).length) (msgsFrom 0 (p :: t))
        ((msgsFrom 0 (p :: t)).length / 10)
        (enqFrom bid 0 (initSystem DEFAULT_CONFIG) (p :: t))
        hcfg hq hqn hmeta hc0 hc1 (by omega) (by omega)
      exact getRecent_of_shape bid _ _ _ limit f4 (by omega) hpos (by omega)

set_option maxRecDepth 100000 in
/-- Witness for the hypotheses of `c3_roundtrip_amended`. -/
theorem c3_roundtrip_amended_witness :
    [payloadFor "b" "Rimuru" "zap"].length ≤ 100 ∧
    [payloadFor "b" "Rimuru" "zap"].length ≤ 5 ∧
    (getRecentMessages (c3Run "b" [payloadFor "b" "Rimuru" "zap"]) "b" 5).1 =
      msgsFrom 0 [payloadFor "b" "Rimuru" "zap"] :=
  ⟨by decide, by decide, c3_roundtrip_amended "b" _ 5 (by decide) (by decide)⟩

set_option maxRecDepth 1000000 in
/-- Counterexample to C3 as stated: eleven messages enqueued on `"b"`,
each followed by its timer flush (eleven one-message chunks, so the
eleventh flush prunes chunk `0` from the cache); `getRecentMessages`
with limit `11` returns only the ten surviving messages `"1" … "10"`,
not all eleven. -/
theorem c3_counterexample :
    (getRecentMessages elevenFlushState "b" 11).1.map (fun m => m.id) =
      (List.range 10).map (fun j => toString (j + 1)) ∧
    ¬ ((getRecentMessages elevenFlushState "b" 11).1.map (fun m => m.id) =
      (List.range 11).map (fun j => toString j)) := by
  decide

end BattleLog
